import Mathlib

/-!
# Verification of the mcp-email-server link-calculator core

Shallow embedding of the cache layer (`mcp_email_server/cache.py`), the
Yandex link calculator and IMAP modified-UTF-7 folder-name codec
(`mcp_email_server/emails/yandex_links.py`), and the web-API matcher
(`mcp_email_server/emails/yandex_web_api.py`).

Python strings are sequences of Unicode code points (which may include lone
surrogates), modelled as `List Nat`.  The Python standard library's UTF-7
codec (`str.encode("utf-7")` / `bytes.decode("utf-7")`), which the folder
name codec calls, is modelled by `pyUtf7Encode` / `pyUtf7Decode` following
CPython's `_PyUnicode_EncodeUTF7` / `PyUnicode_DecodeUTF7Stateful` with the
default flags CPython's codec passes (whitespace and set O are encoded
directly; strict error handling on decode).
-/

namespace McpEmail

/-- A Python `str`: a sequence of Unicode code points. -/
abbrev PyStr := List Nat

/-- Code points of a Lean string, for writing concrete Python strings. -/
def pyOfString (s : String) : PyStr := s.data.map (fun c => c.toNat)

/-- `0x20 <= ord(c) <= 0x7e`: the printable-ASCII test used by
`encode_imap_utf7` to decide which characters pass through unescaped. -/
def isPrintableAscii (c : Nat) : Bool := decide (0x20 ≤ c ∧ c ≤ 0x7e)

/-! ## CPython UTF-7 codec model -/

/-- Is `c` a base-64 alphabet character (`A-Z a-z 0-9 + /`)? -/
def isBase64Char (c : Nat) : Bool :=
  decide ((65 ≤ c ∧ c ≤ 90) ∨ (97 ≤ c ∧ c ≤ 122) ∨ (48 ≤ c ∧ c ≤ 57) ∨ c = 43 ∨ c = 47)

/-- Base-64 value of an alphabet character. -/
def base64Val (c : Nat) : Nat :=
  if 65 ≤ c ∧ c ≤ 90 then c - 65
  else if 97 ≤ c ∧ c ≤ 122 then c - 97 + 26
  else if 48 ≤ c ∧ c ≤ 57 then c - 48 + 52
  else if c = 43 then 62
  else 63

/-- Base-64 alphabet character for the bottom 6 bits of `n`
(CPython `TO_BASE64`, which masks with `0x3f`). -/
def base64Char (n : Nat) : Nat :=
  let m := n % 64
  if m < 26 then 65 + m
  else if m < 52 then 97 + (m - 26)
  else if m < 62 then 48 + (m - 52)
  else if m = 62 then 43
  else 47

/-- Characters CPython's UTF-7 encoder emits directly (set D, set O and
whitespace, the default for `str.encode("utf-7")`): tab, LF, CR and the
printable range `0x20`–`0x7d` minus `+` and backslash. -/
def pyEncodeDirect (c : Nat) : Bool :=
  decide (c = 9 ∨ c = 10 ∨ c = 13 ∨ (32 ≤ c ∧ c ≤ 125 ∧ c ≠ 43 ∧ c ≠ 92))

/-- Emit base-64 characters from the top of a `bits`-bit buffer while at
least 6 bits remain; returns (emitted characters, leftover bit count,
leftover buffer value). -/
def flushB64 : Nat → Nat → List Nat × Nat × Nat
  | bits + 6, buf =>
    let c := base64Char (buf / 2 ^ bits)
    let r := flushB64 bits (buf % 2 ^ bits)
    (c :: r.1, r.2)
  | bits, buf => ([], bits, buf)

/-- Push one 16-bit UTF-16 code unit into the encoder's base-64 buffer. -/
def pushUnit (u bits buf : Nat) : List Nat × Nat × Nat :=
  flushB64 (bits + 16) (buf * 2 ^ 16 + u)

/-- Encode one code point into the base-64 stream: code points at or above
`0x10000` are first split into a surrogate pair (CPython `encode_char`). -/
def pyUtf7EncodeChar (c bits buf : Nat) : List Nat × Nat × Nat :=
  if 0x10000 ≤ c then
    let r1 := pushUnit (0xD800 + (c - 0x10000) / 0x400) bits buf
    let r2 := pushUnit (0xDC00 + (c - 0x10000) % 0x400) r1.2.1 r1.2.2
    (r1.1 ++ r2.1, r2.2)
  else pushUnit c bits buf

/-- CPython's UTF-7 encoder main loop.  State: currently inside a base-64
shift sequence, leftover bit count and leftover buffer value. -/
def pyUtf7EncodeLoop : List Nat → Bool → Nat → Nat → List Nat
  | [], inShift, bits, buf =>
    (if bits ≠ 0 then [base64Char (buf * 2 ^ (6 - bits))] else []) ++
      (if inShift then [45] else [])
  | c :: rest, false, _, _ =>
    if c = 43 then 43 :: 45 :: pyUtf7EncodeLoop rest false 0 0
    else if pyEncodeDirect c then c :: pyUtf7EncodeLoop rest false 0 0
    else
      let r := pyUtf7EncodeChar c 0 0
      43 :: (r.1 ++ pyUtf7EncodeLoop rest true r.2.1 r.2.2)
  | c :: rest, true, bits, buf =>
    if pyEncodeDirect c then
      (if bits ≠ 0 then [base64Char (buf * 2 ^ (6 - bits))] else []) ++
        (if isBase64Char c ∨ c = 45 then [45] else []) ++
        c :: pyUtf7EncodeLoop rest false 0 0
    else
      let r := pyUtf7EncodeChar c bits buf
      r.1 ++ pyUtf7EncodeLoop rest true r.2.1 r.2.2

/-- `str.encode("utf-7")` (result read back as a sequence of code points). -/
def pyUtf7Encode (s : PyStr) : PyStr := pyUtf7EncodeLoop s false 0 0

def isHighSurrogate (u : Nat) : Bool := decide (0xD800 ≤ u ∧ u ≤ 0xDBFF)

def isLowSurrogate (u : Nat) : Bool := decide (0xDC00 ≤ u ∧ u ≤ 0xDFFF)

/-- Combine a UTF-16 surrogate pair into a code point. -/
def joinSurrogates (hi lo : Nat) : Nat :=
  0x10000 + (hi - 0xD800) * 0x400 + (lo - 0xDC00)

/-- CPython's strict UTF-7 decoder main loop.  State: inside a shift
sequence, accumulated bit count, buffer value (always reduced modulo
`2 ^ bits`), and a pending high surrogate (`0` when none).  Returns `none`
where CPython raises `UnicodeDecodeError`. -/
def pyUtf7DecodeLoop : List Nat → Bool → Nat → Nat → Nat → Option (List Nat)
  | [], inShift, bits, buf, surr =>
    if inShift ∧ (surr ≠ 0 ∨ 6 ≤ bits ∨ (0 < bits ∧ buf ≠ 0)) then none else some []
  | c :: rest, true, bits, buf, surr =>
    if isBase64Char c then
      let bits' := bits + 6
      let buf' := buf * 64 + base64Val c
      if 16 ≤ bits' then
        let out := buf' / 2 ^ (bits' - 16)
        let bits'' := bits' - 16
        let buf'' := buf' % 2 ^ (bits' - 16)
        if surr ≠ 0 then
          if isLowSurrogate out then
            (pyUtf7DecodeLoop rest true bits'' buf'' 0).map
              (fun r => joinSurrogates surr out :: r)
          else if isHighSurrogate out then
            (pyUtf7DecodeLoop rest true bits'' buf'' out).map (fun r => surr :: r)
          else
            (pyUtf7DecodeLoop rest true bits'' buf'' 0).map (fun r => surr :: out :: r)
        else
          if isHighSurrogate out then pyUtf7DecodeLoop rest true bits'' buf'' out
          else (pyUtf7DecodeLoop rest true bits'' buf'' 0).map (fun r => out :: r)
      else pyUtf7DecodeLoop rest true bits' buf' surr
    else
      -- a non-base-64 character terminates the shift sequence
      if 6 ≤ bits then none                       -- "partial character in shift sequence"
      else if 0 < bits ∧ buf ≠ 0 then none        -- "non-zero padding bits in shift sequence"
      else
        let pre : List Nat := if surr ≠ 0 ∧ c < 128 then [surr] else []
        if c = 45 then (pyUtf7DecodeLoop rest false 0 0 0).map (fun r => pre ++ r)
        else if c < 128 then (pyUtf7DecodeLoop rest false 0 0 0).map (fun r => pre ++ c :: r)
        else none                                 -- "unexpected special character"
  | c :: rest, false, _, _, _ =>
    if c = 43 then
      match rest with
      | [] => some []                             -- '+' at end enters shift, then clean end
      | 45 :: rest' => (pyUtf7DecodeLoop rest' false 0 0 0).map (fun r => 43 :: r)
      | d :: t =>
        if isBase64Char d then pyUtf7DecodeLoop (d :: t) true 0 0 0
        else none                                 -- "ill-formed sequence"
    else if c < 128 then (pyUtf7DecodeLoop rest false 0 0 0).map (fun r => c :: r)
    else none                                     -- "unexpected special character"

/-- `bytes.decode("utf-7")` with strict errors; `none` models the raised
`UnicodeDecodeError`. -/
def pyUtf7Decode (s : PyStr) : Option (PyStr) := pyUtf7DecodeLoop s false 0 0 0

/-! ## IMAP modified UTF-7 folder-name codec (`yandex_links.py`) -/

/-- `s.find("-", i+1)` as a splitter: `findDash l = some (a, b)` when
`l = a ++ 45 :: b` and `45 ∉ a`; `none` when `l` has no dash. -/
def findDash : List Nat → Option (PyStr × PyStr)
  | [] => none
  | c :: rest =>
    if c = 45 then some ([], rest)
    else (findDash rest).map (fun p => (c :: p.1, p.2))

/-- `.replace(",", "/")` on one character. -/
def commaToSlash (c : Nat) : Nat := if c = 44 then 47 else c

/-- `.replace("/", ",")` on one character. -/
def slashToComma (c : Nat) : Nat := if c = 47 then 44 else c

/-- Decode the text standing between `&` and its terminating `-`: restore
`/` for `,`, require ASCII (`.encode("ascii")`), decode as standard UTF-7
(`"+" + encoded + "-"`); on any failure pass `s[i:j+1]` — the raw segment
with its `&` and `-` — through untouched. -/
def decodeSegment (seg : PyStr) : PyStr :=
  let u := 43 :: (seg.map commaToSlash ++ [45])
  if u.all (fun c => c < 128) then
    match pyUtf7Decode u with
    | some d => d
    | none => 38 :: (seg ++ [45])
  else 38 :: (seg ++ [45])

/-- The character-scanning loop of `decode_imap_utf7`. -/
def decodeLoopImap : List Nat → List Nat
  | [] => []
  | c :: rest =>
    if c = 38 then
      if rest.head? = some 45 then 38 :: decodeLoopImap rest.tail
      else
        match h : findDash rest with
        | none => 38 :: rest
        | some (seg, rest') => decodeSegment seg ++ decodeLoopImap rest'
    else c :: decodeLoopImap rest
  termination_by l => l.length
  decreasing_by
  · simp [List.length_tail]; omega
  · have key : ∀ (l : List Nat) (p : PyStr × PyStr),
        findDash l = some p → p.2.length < l.length := by
      intro l
      induction l with
      | nil => intro p hp; simp [findDash] at hp
      | cons x xs ih =>
        intro p hp
        by_cases hx : x = 45
        · simp [findDash, hx] at hp
          cases hp; simp
        · simp [findDash, hx] at hp
          obtain ⟨a, b, hfd, rfl⟩ := hp
          have := ih (a, b) hfd
          simpa using Nat.lt_succ_of_lt this
    exact Nat.lt_succ_of_lt (key rest (seg, rest') h)
  · exact Nat.lt_succ_self _

/-- `decode_imap_utf7` (yandex_links.py lines 21–61). -/
def decode_imap_utf7 (s : PyStr) : PyStr :=
  if 38 ∈ s then decodeLoopImap s else s

/-- Wrap Python's UTF-7 encoding of a non-printable run in IMAP form:
strip the leading `+` and (when present) trailing `-`, replace `/` by `,`,
and surround with `&` … `-`. -/
def wrapImap (e : PyStr) : PyStr :=
  if e.head? = some 43 ∧ e.getLast? = some 45 then
    (38 :: ((e.drop 1).dropLast.map slashToComma)) ++ [45]
  else
    let t := 38 :: (e.drop 1).map slashToComma
    if t.getLast? = some 45 then t else t ++ [45]

/-- The character-scanning loop of `encode_imap_utf7`. -/
def encodeLoopImap : List Nat → List Nat
  | [] => []
  | c :: rest =>
    if c = 38 then 38 :: 45 :: encodeLoopImap rest
    else if isPrintableAscii c then c :: encodeLoopImap rest
    else
      wrapImap (pyUtf7Encode ((c :: rest).takeWhile (fun d => !isPrintableAscii d)))
        ++ encodeLoopImap ((c :: rest).dropWhile (fun d => !isPrintableAscii d))
  termination_by l => l.length
  decreasing_by
  · exact Nat.lt_succ_self _
  · exact Nat.lt_succ_self _
  · refine Nat.lt_succ_of_le ?_
    have h2 : List.dropWhile (fun d => !isPrintableAscii d) (c :: rest) =
        List.dropWhile (fun d => !isPrintableAscii d) rest := by
      simp_all [List.dropWhile]
    rw [h2]
    exact (List.dropWhile_sublist _).length_le

/-- `encode_imap_utf7` (yandex_links.py lines 64–108). -/
def encode_imap_utf7 (s : PyStr) : PyStr :=
  if s.all isPrintableAscii ∧ 38 ∉ s then s else encodeLoopImap s

/-! ## SQLite cache model (`cache.py`)

Dates travel as ISO-format strings (`datetime.isoformat`), which compare
the same way the underlying datetimes do, and
`datetime.fromisoformat(d.isoformat()) == d`, so the model keeps them as
strings end to end. -/

/-- A row of the `message_index` table, PRIMARY KEY `(account, folder, uid)`
(cache.py 38–46).  `mid` is the resolved provider id (the column the
calculator variant calls `web_id`); `tid` is nullable. -/
structure MessageRow where
  account : String
  folder : PyStr
  uid : Nat
  internal_date : PyStr
  mid : Int
  tid : Option Int
deriving DecidableEq

/-- A row of the `sync_state` table, PRIMARY KEY `account` (cache.py 57–61). -/
structure SyncStateRow where
  account : String
  last_sync_date : PyStr
  max_mid : Int
deriving DecidableEq

/-- The link-calculator tables of the cache database. -/
structure CacheDb where
  message_index : List MessageRow
  sync_state : List SyncStateRow
deriving DecidableEq

/-- Python string comparison: lexicographic on code points (`s < t`). -/
def pyStrLt : PyStr → PyStr → Bool
  | [], [] => false
  | [], _ :: _ => true
  | _ :: _, [] => false
  | a :: as, b :: bs => if a < b then true else if b < a then false else pyStrLt as bs

/-- Does row `r` have primary key `(account, folder, uid)`? -/
def sameKey (r : MessageRow) (account : String) (folder : PyStr) (uid : Nat) : Bool :=
  r.account == account && r.folder == folder && r.uid == uid

/-- `INSERT OR REPLACE INTO message_index`: the new row replaces any
existing row with the same primary key. -/
def upsertMessage (t : List MessageRow) (r : MessageRow) : List MessageRow :=
  r :: t.filter (fun x => !sameKey x r.account r.folder r.uid)

/-- One element of the `messages` argument of `bulk_insert_messages`:
a dict with keys `folder`, `uid`, `internal_date`, `mid` and optional
`tid` (`m.get("tid")` yields `None` when absent). -/
structure MsgDict where
  folder : PyStr
  uid : Nat
  internal_date : PyStr
  mid : Int
  tid : Option Int := none
deriving DecidableEq

/-- `bulk_insert_messages(account, messages)` (cache.py 168–194):
`executemany` of `INSERT OR REPLACE`, applied left to right. -/
def bulk_insert_messages (account : String) (messages : List MsgDict) (db : CacheDb) :
    CacheDb :=
  { db with message_index :=
      (messages.foldl
        (fun t m => upsertMessage t ⟨account, m.folder, m.uid, m.internal_date, m.mid, m.tid⟩)
        db.message_index) }

/-- `get_mid(account, folder, uid)` (cache.py 117–137): point lookup of the
resolved id; `None` on a missing row.  This is also the `message_index`
point lookup behind the calculator's cache read (`cache.get_web_id` in
yandex_links.py; the spec's "resolved ID" lookup). -/
def get_mid (db : CacheDb) (account : String) (folder : PyStr) (uid : Nat) : Option Int :=
  (db.message_index.find? (fun r => sameKey r account folder uid)).map (fun r => r.mid)

/-- `get_message_ids(account, folder, uid)` (cache.py 140–165).  The
fallback `tid = row["tid"] if row["tid"] else mid` tests Python truthiness,
so both a NULL `tid` and a zero `tid` fall back to `mid`. -/
def get_message_ids (db : CacheDb) (account : String) (folder : PyStr) (uid : Nat) :
    Option (Int × Int) :=
  match db.message_index.find? (fun r => sameKey r account folder uid) with
  | some r =>
    some (r.mid,
      match r.tid with
      | some v => if v ≠ 0 then v else r.mid
      | none => r.mid)
  | none => none

/-- `get_last_sync_date(account)` (cache.py 197–217). -/
def get_last_sync_date (db : CacheDb) (account : String) : Option PyStr :=
  (db.sync_state.find? (fun r => r.account == account)).map (fun r => r.last_sync_date)

/-- `get_max_mid(account)` (cache.py 220–238); `get_max_web_id` in the
calculator's vocabulary. -/
def get_max_mid (db : CacheDb) (account : String) : Option Int :=
  (db.sync_state.find? (fun r => r.account == account)).map (fun r => r.max_mid)

/-- `update_sync_state(account, last_date, max_mid)` (cache.py 241–260):
`INSERT OR REPLACE` keyed by account. -/
def update_sync_state (db : CacheDb) (account : String) (last_date : PyStr) (max_mid : Int) :
    CacheDb :=
  { db with sync_state :=
      ⟨account, last_date, max_mid⟩ :: db.sync_state.filter (fun r => !(r.account == account)) }

/-- `clear_account_cache(account)` (cache.py 314–327): delete the account's
`message_index` rows and its `sync_state` row. -/
def clear_account_cache (db : CacheDb) (account : String) : CacheDb :=
  { message_index := db.message_index.filter (fun r => !(r.account == account)),
    sync_state := db.sync_state.filter (fun r => !(r.account == account)) }

/-! ## Sync engine and link-calculator façade (`yandex_links.py`) -/

/-- One fetched message accumulated by `_sync_messages` across folders:
`{"folder": decode_imap_utf7(folder), "uid": ..., "internal_date": ...}`. -/
structure SyncMsg where
  folder : PyStr
  uid : Nat
  internal_date : PyStr
deriving DecidableEq

/-- A fetched message after the assignment phase added its `web_id`. -/
structure AssignedMsg where
  folder : PyStr
  uid : Nat
  internal_date : PyStr
  web_id : Int
deriving DecidableEq

/-- The `YandexLinkConfig` baseline facts the calculator reads. -/
structure BaselineConfig where
  baseline_folder : PyStr
  baseline_uid : Nat
  baseline_web_id : Int
  baseline_date : PyStr
  folder_ids : List (PyStr × Nat)
  url_prefix : String
deriving DecidableEq

/-- Insert a message into an already-sorted list, after any message with an
equal or smaller date — the stable order Python's `list.sort(key=...)`
produces. -/
def insertByDate (m : SyncMsg) : List SyncMsg → List SyncMsg
  | [] => [m]
  | x :: xs =>
    if pyStrLt m.internal_date x.internal_date then m :: x :: xs else x :: insertByDate m xs

/-- `all_messages.sort(key=lambda m: m["internal_date"])` (line 224). -/
def sortByDate (l : List SyncMsg) : List SyncMsg :=
  l.foldl (fun acc m => insertByDate m acc) []

/-- The first sorted position whose `(folder, uid)` equals the baseline key
(yandex_links.py 227–233); `None` when the baseline is not in the batch. -/
def baselinePos (b : BaselineConfig) (msgs : List SyncMsg) : Option Nat :=
  msgs.findIdx? (fun m => m.folder == b.baseline_folder && m.uid == b.baseline_uid)

/-- Strategy A assignment with the baseline at sorted position `p`:
`msg["web_id"] = baseline_web_id + (i - baseline_pos)` (lines 237–239). -/
def assignWithBaseline (baselineWebId : Int) (p : Nat) (msgs : List SyncMsg) :
    List AssignedMsg :=
  msgs.enum.map (fun im =>
    ⟨im.2.folder, im.2.uid, im.2.internal_date, baselineWebId + ((im.1 : Int) - (p : Int))⟩)

/-- Strategy A assignment when the baseline is absent: a running counter
seeded from `start_web_id`, incremented before each message (lines 240–245). -/
def assignIncremental (startWebId : Int) (msgs : List SyncMsg) : List AssignedMsg :=
  (msgs.foldl
      (fun acc m => (acc.1 + 1, acc.2 ++ [⟨m.folder, m.uid, m.internal_date, acc.1 + 1⟩]))
      (startWebId, ([] : List AssignedMsg))).2

/-- The sort/locate/assign core of `_sync_messages` (lines 219–255) on the
combined fetched list; also reports the checkpoint update
`(newest internal_date, newest web_id)` taken from the last sorted entry. -/
def syncAssign (b : BaselineConfig) (startWebId : Int) (fetched : List SyncMsg) :
    List AssignedMsg × Option (PyStr × Int) :=
  if fetched.isEmpty then ([], none)
  else
    let sorted := sortByDate fetched
    let entries :=
      match baselinePos b sorted with
      | some p => assignWithBaseline b.baseline_web_id p sorted
      | none => assignIncremental startWebId sorted
    (entries, entries.getLast?.map (fun m => (m.internal_date, m.web_id)))

/-- Python truthiness of an optional integer (`None` and `0` are falsy). -/
def truthyInt : Option Int → Option Int
  | some v => if v = 0 then none else some v
  | none => none

/-- A Python exception propagating out of the staged code. -/
inductive PyError where
  | attributeError (name : String)
  | keyError (name : String)
deriving DecidableEq

/-- The attribute access `cache.get_web_id` (yandex_links.py 160 and 172):
`cache.py` defines `get_mid` but no `get_web_id`, and the package has no
alias or module `__getattr__`, so the access itself raises
`AttributeError` before any call is made. -/
def cache_get_web_id : Except PyError (CacheDb → String → PyStr → Nat → Option Int) :=
  .error (.attributeError "get_web_id")

/-- The attribute access `cache.get_max_web_id` (yandex_links.py 185):
`cache.py` defines `get_max_mid` but no `get_max_web_id`, so the access
raises `AttributeError`. -/
def cache_get_max_web_id : Except PyError (CacheDb → String → Option Int) :=
  .error (.attributeError "get_max_web_id")

/-- The dict literal `_sync_messages` builds for each message
(yandex_links.py 197–202 and 238/244): keys `folder`, `uid`,
`internal_date`, `web_id` — and no key `"mid"`. -/
structure WebIdDict where
  folder : PyStr
  uid : Nat
  internal_date : PyStr
  web_id : Int
deriving DecidableEq

/-- `cache.bulk_insert_messages` applied to the `web_id`-keyed dicts
`_sync_messages` passes it: on an empty batch it returns before touching
the dicts (cache.py 179–180); on a nonempty batch the row builder reads
`m["mid"]` (cache.py 187), which no such dict has, so it raises
`KeyError('mid')` before anything is written. -/
def bulk_insert_web_id_dicts (account : String) (msgs : List WebIdDict) (db : CacheDb) :
    Except PyError CacheDb :=
  match msgs with
  | [] => .ok db
  | _ :: _ => .error (.keyError "mid")

/-- `_sync_messages` (yandex_links.py 181–255) as staged: after the
checkpoint-date read (line 184), the attribute access
`cache.get_max_web_id` (line 185) raises `AttributeError`.  The remainder
— translated below the raising access and unreachable — would itself pass
`web_id`-keyed dicts to `cache.bulk_insert_messages` and raise
`KeyError('mid')` at its first nonempty bulk insert.  The IMAP
collaborator is abstracted as `fetch`, mapping the since-date to the
combined `(folder, uid, internal_date)` list gathered across all folders.
`if last_sync and max_web_id:` tests truthiness: a datetime is always
truthy, an integer is truthy iff nonzero. -/
def sync_messages (b : BaselineConfig) (account : String)
    (fetch : PyStr → List SyncMsg) (db : CacheDb) : Except PyError CacheDb :=
  let last_sync := get_last_sync_date db account
  match cache_get_max_web_id with
  | .error e => .error e
  | .ok get_max_web_id_fn =>
    let max_web_id := truthyInt (get_max_web_id_fn db account)
    let seed : Except PyError (PyStr × Int × CacheDb) :=
      match last_sync, max_web_id with
      | some d, some m => .ok (d, m, db)
      | _, _ =>
        match bulk_insert_web_id_dicts account
            [⟨b.baseline_folder, b.baseline_uid, b.baseline_date, b.baseline_web_id⟩] db with
        | .error e => .error e
        | .ok db1 => .ok (b.baseline_date, b.baseline_web_id, db1)
    match seed with
    | .error e => .error e
    | .ok (since_date, start_web_id, db1) =>
      let fetched := fetch since_date
      if fetched.isEmpty then .ok db1
      else
        let r := syncAssign b start_web_id fetched
        match bulk_insert_web_id_dicts account
            (r.1.map (fun m => ⟨m.folder, m.uid, m.internal_date, m.web_id⟩)) db1 with
        | .error e => .error e
        | .ok db2 =>
          match r.2 with
          | some p => .ok (update_sync_state db2 account p.1 p.2)
          | none => .ok db2

/-- `_format_url(web_id, folder)` (yandex_links.py 348–353):
`folder_ids.get(decode_imap_utf7(folder), 1)` then the URL template. -/
def format_url (b : BaselineConfig) (web_id : Int) (folder : PyStr) : String :=
  let decoded := decode_imap_utf7 folder
  let folder_id := ((b.folder_ids.find? (fun p => p.1 == decoded)).map (fun p => p.2)).getD 1
  "https://" ++ b.url_prefix ++ "/touch/folder/" ++ toString folder_id ++ "/thread/" ++
    toString web_id

/-- The per-instance calculator state: the cache database and the
`self._synced` flag, initialized `False` in `__init__` (line 131). -/
structure CalcState where
  db : CacheDb
  synced : Bool
deriving DecidableEq

/-- `get_web_url(folder, uid)` (yandex_links.py 149–180) as staged: its
first statement, `cached_web_id = cache.get_web_id(self.account, folder,
uid)` (line 160), raises `AttributeError` — before the `_synced` check.
The translated remainder — truthiness cache hit, one sync per session
(`self._synced = True` at line 169 runs only after `_sync_messages`
returns without raising), the post-sync re-lookup through line 172's
second `cache.get_web_id` access, and the baseline-anchored fallback — is
unreachable.  Returns the raised error or the URL, together with the
calculator state as the caller observes it afterwards. -/
def get_web_url (b : BaselineConfig) (account : String)
    (fetch : PyStr → List SyncMsg) (st : CalcState) (folder : PyStr) (uid : Nat) :
    Except PyError String × CalcState :=
  match cache_get_web_id with
  | .error e => (.error e, st)
  | .ok get_web_id_fn =>
    match truthyInt (get_web_id_fn st.db account folder uid) with
    | some wid => (.ok (format_url b wid folder), st)
    | none =>
      if !st.synced then
        match sync_messages b account fetch st.db with
        | .error e => (.error e, st)
        | .ok db' =>
          let st' : CalcState := ⟨db', true⟩
          match cache_get_web_id with
          | .error e => (.error e, st')
          | .ok get_web_id_fn2 =>
            match truthyInt (get_web_id_fn2 db' account folder uid) with
            | some wid => (.ok (format_url b wid folder), st')
            | none => (.ok (format_url b b.baseline_web_id b.baseline_folder), st')
      else (.ok (format_url b b.baseline_web_id b.baseline_folder), st)

/-- Run a sequence of `(folder, uid)` requests through one calculator
instance, collecting each call's outcome and threading the state. -/
def runSession (b : BaselineConfig) (account : String) (fetch : PyStr → List SyncMsg) :
    CalcState → List (PyStr × Nat) → List (Except PyError String) × CalcState
  | st, [] => ([], st)
  | st, r :: rs =>
    let c := get_web_url b account fetch st r.1 r.2
    let rest := runSession b account fetch c.2 rs
    (c.1 :: rest.1, rest.2)

/-! ## Web API reconciliation matching (`yandex_web_api.py`) -/

/-- Unicode whitespace as recognized by Python's `str.strip()` and the
regex class `\s`. -/
def isPySpace (c : Nat) : Bool :=
  decide (c = 0x20 ∨ (0x9 ≤ c ∧ c ≤ 0xD) ∨ (0x1C ≤ c ∧ c ≤ 0x1F) ∨ c = 0x85 ∨ c = 0xA0 ∨
    c = 0x1680 ∨ (0x2000 ≤ c ∧ c ≤ 0x200A) ∨ c = 0x2028 ∨ c = 0x2029 ∨ c = 0x202F ∨
    c = 0x205F ∨ c = 0x3000)

/-- `str.strip()`. -/
def pyStrip (s : PyStr) : PyStr :=
  ((s.dropWhile isPySpace).reverse.dropWhile isPySpace).reverse

/-- ASCII lowercasing; other code points are kept (a conservative model of
`str.lower()`, exact on ASCII). -/
def pyLowerChar (c : Nat) : Nat := if 65 ≤ c ∧ c ≤ 90 then c + 32 else c

/-- The substitution `re.sub(r'^(Re:\s*|Fwd:\s*)+', '', s, flags=re.I)`:
the anchored greedy repetition repeatedly strips a leading case-insensitive
`Re:` or `Fwd:` together with the whitespace following it. -/
def stripReFwd (s : PyStr) : PyStr :=
  if (s.take 3).map pyLowerChar = pyOfString "re:" then
    stripReFwd ((s.drop 3).dropWhile isPySpace)
  else if (s.take 4).map pyLowerChar = pyOfString "fwd:" then
    stripReFwd ((s.drop 4).dropWhile isPySpace)
  else s
  termination_by s.length
  decreasing_by
  · have h3 : 3 ≤ s.length := by
      have := congrArg List.length (by assumption : (s.take 3).map pyLowerChar = pyOfString "re:")
      simpa [pyOfString] using this
    calc ((s.drop 3).dropWhile isPySpace).length ≤ (s.drop 3).length :=
        (List.dropWhile_sublist _).length_le
      _ < s.length := by simp [List.length_drop]; omega
  · have h4 : 4 ≤ s.length := by
      have := congrArg List.length (by assumption : (s.take 4).map pyLowerChar = pyOfString "fwd:")
      simpa [pyOfString] using this
    calc ((s.drop 4).dropWhile isPySpace).length ≤ (s.drop 4).length :=
        (List.dropWhile_sublist _).length_le
      _ < s.length := by simp [List.length_drop]; omega

/-- Subject normalization used on both sides of the matcher
(yandex_web_api.py 362–364 and 371–372): strip, remove leading `Re:`/`Fwd:`
prefixes case-insensitively, strip again, lowercase. -/
def normSubject (subject : PyStr) : PyStr :=
  (pyStrip (stripReFwd (pyStrip subject))).map pyLowerChar

/-- A provider-side message from the Web API: true `mid`, optional raw
thread id, subject, and `date.timestamp` in milliseconds (`.get` chain
defaults to `0`). -/
structure WebMsg where
  mid : Int
  tidRaw : Option Int
  subject : PyStr
  timestamp : Option Int
deriving DecidableEq

/-- An IMAP-side message handed to the matcher: `uid`, `subject`, and its
date as a POSIX timestamp in milliseconds (`date.timestamp() * 1000`);
`none` when the `date` value is not a `datetime`. -/
structure ImapMsg where
  uid : Nat
  subject : PyStr
  date : Option Int
deriving DecidableEq

/-- Append `w` to the entry for key `k`, creating the entry on first use —
Python dict insertion plus list append. -/
def addToGroup (k : PyStr) (w : WebMsg) :
    List (PyStr × List WebMsg) → List (PyStr × List WebMsg)
  | [] => [(k, [w])]
  | g :: gs => if g.1 == k then (g.1, g.2 ++ [w]) :: gs else g :: addToGroup k w gs

/-- `web_by_subject`: web messages indexed by normalized subject
(yandex_web_api.py 360–367). -/
def webBySubject (webs : List WebMsg) : List (PyStr × List WebMsg) :=
  webs.foldl (fun d w => addToGroup (normSubject w.subject) w d) []

/-- `web_by_subject.get(norm_subject, [])`. -/
def lookupGroup (d : List (PyStr × List WebMsg)) (k : PyStr) : List WebMsg :=
  ((d.find? (fun g => g.1 == k)).map (fun g => g.2)).getD []

/-- The closest-candidate scan (yandex_web_api.py 385–396): fold keeping
the strictly smallest `abs(web_ts - imap_ts)`, the first winner kept on
ties, starting from `best_diff = float("inf")` (modelled as `none`). -/
def bestByDate (imapTs : Int) (cands : List WebMsg) : Option WebMsg × Option Int :=
  cands.foldl
    (fun acc w =>
      let diff := |w.timestamp.getD 0 - imapTs|
      match acc.2 with
      | none => (some w, some diff)
      | some bd => if diff < bd then (some w, some diff) else acc)
    (none, none)

/-- The multiple-candidates branch (yandex_web_api.py 384–396): requires
the IMAP date to be a `datetime`, then accepts the closest candidate only
under the 2-minute bound. -/
def closestUnder2Min : Option Int → List WebMsg → Option WebMsg
  | some ts, cands =>
    (match bestByDate ts cands with
     | (some w, some bd) => if bd < 120000 then some w else none
     | _ => none)
  | none, _ => none

/-- The per-IMAP-message candidate selection of `match_imap_to_web`
(yandex_web_api.py 370–399). -/
def matchOne (index : List (PyStr × List WebMsg)) (im : ImapMsg) : Option WebMsg :=
  let cands := lookupGroup index (normSubject im.subject)
  if cands.length = 1 then cands.head?
  else if 1 < cands.length then closestUnder2Min im.date cands
  else none

/-- `(mid, tid)` recorded for a matched web message:
`tid = int(tid_raw) if tid_raw else mid` — truthiness, so a missing and a
zero `tidRaw` both fall back to `mid` (yandex_web_api.py 401–405). -/
def matchedIds (w : WebMsg) : Int × Int :=
  (w.mid,
    match w.tidRaw with
    | some t => if t ≠ 0 then t else w.mid
    | none => w.mid)

/-- `match_imap_to_web(imap_messages, web_messages)` (yandex_web_api.py
342–407): the `uid -> (mid, tid)` mapping, later entries overwriting. -/
def match_imap_to_web (imaps : List ImapMsg) (webs : List WebMsg) :
    List (Nat × (Int × Int)) :=
  let index := webBySubject webs
  imaps.foldl
    (fun acc im =>
      match matchOne index im with
      | some w => (im.uid, matchedIds w) :: acc.filter (fun p => !(p.1 == im.uid))
      | none => acc)
    []

/-! ## Store claims: C7, C9, C10 -/

/-- A character of a non-printable run under the amended round-trip
hypotheses: a valid Unicode scalar (no lone surrogate) that CPython's
UTF-7 encoder does not emit directly. -/
def RunChar (c : Nat) : Prop :=
  c < 0x110000 ∧ isHighSurrogate c = false ∧ isLowSurrogate c = false ∧
    pyEncodeDirect c = false

/-- The coupled state of encoder and decoder between two run characters:
either both are empty, or a 16-bit unit `u` is split across them — its low
`ebits` bits still in the encoder, its high bits already consumed by the
decoder — and `u` will be emitted as itself (no surrogate pending) or as
the completion `joinSurrogates surr u` of a surrogate pair. -/
def ShiftInv (ebits ebuf dbits dbuf surr : Nat) (pending : List Nat) : Prop :=
  (ebits = 0 ∧ ebuf = 0 ∧ dbits = 0 ∧ dbuf = 0 ∧ surr = 0 ∧ pending = []) ∨
  (∃ u : Nat, (ebits = 2 ∨ ebits = 4) ∧ u < 2 ^ 16 ∧ ebuf = u % 2 ^ ebits ∧
    dbits = 16 - ebits ∧ dbuf = u / 2 ^ ebits ∧
    ((surr = 0 ∧ isHighSurrogate u = false ∧ isLowSurrogate u = false ∧ pending = [u]) ∨
     (isHighSurrogate surr = true ∧ isLowSurrogate u = true ∧
       pending = [joinSurrogates surr u])))

/-- A character under the amended round-trip hypotheses: a valid Unicode
scalar value (no lone surrogate) that is none of tab, LF, CR. -/
def ValidChar (c : Nat) : Prop :=
  c < 0x110000 ∧ isHighSurrogate c = false ∧ isLowSurrogate c = false ∧
    c ≠ 9 ∧ c ≠ 10 ∧ c ≠ 13

instance (c : Nat) : Decidable (ValidChar c) := by
  unfold ValidChar
  infer_instance

/-! ## Theorems -/

theorem sameKey_self (account : String) (folder : PyStr) (uid : Nat)
    (d : PyStr) (mid : Int) (tid : Option Int) :
    sameKey ⟨account, folder, uid, d, mid, tid⟩ account folder uid = true := by
  simp [sameKey]

/-- C7: store writes are idempotent upserts — inserting the same
`(account, folder, uid, internal_date, mid)` tuple twice via
`bulk_insert_messages` changes nothing on the second write, leaves exactly
one row for that key, and the same id is retrievable by point lookup. -/
theorem store_upsert_idempotent (db : CacheDb) (account : String) (m : MsgDict) :
    bulk_insert_messages account [m] (bulk_insert_messages account [m] db) =
      bulk_insert_messages account [m] db ∧
    ((bulk_insert_messages account [m] (bulk_insert_messages account [m] db)).message_index.filter
        (fun r => sameKey r account m.folder m.uid)).length = 1 ∧
    get_mid (bulk_insert_messages account [m] (bulk_insert_messages account [m] db))
        account m.folder m.uid = some m.mid := by
  have hrow := sameKey_self account m.folder m.uid m.internal_date m.mid m.tid
  refine ⟨?_, ?_, ?_⟩
  · simp only [bulk_insert_messages, List.foldl_cons, List.foldl_nil, upsertMessage]
    congr 1
    simp [List.filter_cons, hrow, List.filter_filter]
  · simp only [bulk_insert_messages, List.foldl_cons, List.foldl_nil, upsertMessage]
    simp [List.filter_cons, hrow, List.filter_filter]
  · unfold get_mid
    rw [show (bulk_insert_messages account [m] (bulk_insert_messages account [m] db)).message_index
        = ⟨account, m.folder, m.uid, m.internal_date, m.mid, m.tid⟩ ::
          ((bulk_insert_messages account [m] db).message_index.filter
            (fun x => !sameKey x account m.folder m.uid)) from rfl]
    rw [List.find?_cons, hrow]
    rfl

/-- C9: `clear_account_cache(account)` removes every `message_index` row and
the `sync_state` row of that account, and a row of any other account
survives exactly as it was stored. -/
theorem clear_account_cache_frame (db : CacheDb) (a : String) :
    (∀ r : MessageRow, r ∈ (clear_account_cache db a).message_index ↔
        (r ∈ db.message_index ∧ r.account ≠ a)) ∧
    (∀ r : SyncStateRow, r ∈ (clear_account_cache db a).sync_state ↔
        (r ∈ db.sync_state ∧ r.account ≠ a)) := by
  constructor
  · intro r
    simp [clear_account_cache, List.mem_filter]
  · intro r
    simp [clear_account_cache, List.mem_filter]

/-- C10: for a stored `message_index` row, `get_message_ids` returns
`(mid, tid)` with the stored `tid` replaced by `mid` both when `tid` is
NULL and when `tid` is `0` (the fallback tests truthiness), and returns the
stored `tid` itself only when it is present and nonzero; a stored thread id
of `0` is therefore never observable through this lookup. -/
theorem get_message_ids_tid_truthiness (db : CacheDb) (account : String) (folder : PyStr)
    (uid : Nat) (r : MessageRow)
    (h : db.message_index.find? (fun x => sameKey x account folder uid) = some r) :
    (r.tid = none → get_message_ids db account folder uid = some (r.mid, r.mid)) ∧
    (r.tid = some 0 → get_message_ids db account folder uid = some (r.mid, r.mid)) ∧
    (∀ v : Int, r.tid = some v → v ≠ 0 →
      get_message_ids db account folder uid = some (r.mid, v)) := by
  refine ⟨?_, ?_, ?_⟩
  · intro ht; simp [get_message_ids, h, ht]
  · intro ht; simp [get_message_ids, h, ht]
  · intro v ht hv; simp [get_message_ids, h, ht, hv]

/-- Witness for C10 at a concrete table: a row stored with `tid = 0` reads
back as `(mid, mid)`. -/
theorem get_message_ids_tid_truthiness_witness :
    get_message_ids
      ⟨[⟨"acct", pyOfString "INBOX", 7, pyOfString "2025-01-01", 5555, some 0⟩], []⟩
      "acct" (pyOfString "INBOX") 7 = some (5555, 5555) :=
  (get_message_ids_tid_truthiness
    ⟨[⟨"acct", pyOfString "INBOX", 7, pyOfString "2025-01-01", 5555, some 0⟩], []⟩
    "acct" (pyOfString "INBOX") 7
    ⟨"acct", pyOfString "INBOX", 7, pyOfString "2025-01-01", 5555, some 0⟩
    (by decide)).2.1 rfl

/-! ## Strategy A claims: C2, C5 -/

theorem insertByDate_length (m : SyncMsg) :
    ∀ l : List SyncMsg, (insertByDate m l).length = l.length + 1 := by
  intro l
  induction l with
  | nil => rfl
  | cons x xs ih =>
    by_cases h : pyStrLt m.internal_date x.internal_date
    · simp [insertByDate, h]
    · simp [insertByDate, h, ih]

theorem sortByDate_length (l : List SyncMsg) : (sortByDate l).length = l.length := by
  suffices h : ∀ acc : List SyncMsg,
      (l.foldl (fun acc m => insertByDate m acc) acc).length = acc.length + l.length by
    simpa using h []
  induction l with
  | nil => intro acc; simp
  | cons x xs ih =>
    intro acc
    simp only [List.foldl_cons]
    rw [ih (insertByDate x acc), insertByDate_length]
    simp only [List.length_cons]
    omega

theorem assignIncremental_aux (l : List SyncMsg) :
    ∀ (s : Int) (acc : List AssignedMsg),
      (l.foldl (fun a m => (a.1 + 1, a.2 ++ [⟨m.folder, m.uid, m.internal_date, a.1 + 1⟩]))
        (s, acc)).2 =
      acc ++ (l.foldl (fun a m => (a.1 + 1, a.2 ++ [⟨m.folder, m.uid, m.internal_date, a.1 + 1⟩]))
        (s, ([] : List AssignedMsg))).2 := by
  induction l with
  | nil => intro s acc; simp
  | cons x xs ih =>
    intro s acc
    simp only [List.foldl_cons, List.nil_append]
    have h1 := ih (s + 1) (acc ++ [⟨x.folder, x.uid, x.internal_date, s + 1⟩])
    have h2 := ih (s + 1) [⟨x.folder, x.uid, x.internal_date, s + 1⟩]
    rw [h1, h2]
    simp

theorem assignIncremental_cons (s : Int) (m : SyncMsg) (l : List SyncMsg) :
    assignIncremental s (m :: l) =
      ⟨m.folder, m.uid, m.internal_date, s + 1⟩ :: assignIncremental (s + 1) l := by
  unfold assignIncremental
  simp only [List.foldl_cons, List.nil_append]
  rw [assignIncremental_aux]
  rfl

theorem assignIncremental_web_ids (l : List SyncMsg) :
    ∀ (s : Int) (i : Nat), i < l.length →
      ((assignIncremental s l)[i]?).map (fun e => e.web_id) = some (s + (i : Int) + 1) := by
  induction l with
  | nil => intro s i h; simp at h
  | cons m rest ih =>
    intro s i h
    rw [assignIncremental_cons]
    cases i with
    | zero => simp
    | succ j =>
      have hj : j < rest.length := Nat.lt_of_succ_lt_succ h
      have h2 := ih (s + 1) j hj
      simp only [List.getElem?_cons_succ]
      rw [h2]
      congr 1
      push_cast
      ring

theorem assignIncremental_shape (l : List SyncMsg) :
    ∀ s : Int, (assignIncremental s l).map (fun e => (e.folder, e.uid, e.internal_date))
      = l.map (fun m => (m.folder, m.uid, m.internal_date)) := by
  induction l with
  | nil => intro s; rfl
  | cons m rest ih =>
    intro s
    rw [assignIncremental_cons]
    simp [ih]

theorem assignIncremental_getLast (l : List SyncMsg) :
    ∀ s : Int, l ≠ [] →
      (assignIncremental s l).getLast? =
        l.getLast?.map (fun msg => ⟨msg.folder, msg.uid, msg.internal_date, s + l.length⟩) := by
  induction l with
  | nil => intro s h; simp at h
  | cons m rest ih =>
    intro s _
    rw [assignIncremental_cons]
    cases rest with
    | nil =>
      rw [show assignIncremental (s + 1) ([] : List SyncMsg) = [] from rfl]
      simp
    | cons y ys =>
      have h1 := ih (s + 1) (by simp)
      rw [show assignIncremental (s + 1) (y :: ys) =
        ⟨y.folder, y.uid, y.internal_date, s + 1 + 1⟩ :: assignIncremental (s + 1 + 1) ys from
          assignIncremental_cons _ _ _]
      rw [List.getLast?_cons_cons]
      rw [← assignIncremental_cons, h1]
      rw [List.getLast?_cons_cons]
      cases hx : (y :: ys).getLast? with
      | none => simp at hx
      | some lm =>
        simp only [Option.map_some', List.length_cons]
        refine congrArg some ?_
        simp only [AssignedMsg.mk.injEq, true_and]
        push_cast
        ring

theorem assignWithBaseline_web_ids (w : Int) (p : Nat) (l : List SyncMsg) (i : Nat)
    (h : i < l.length) :
    ((assignWithBaseline w p l)[i]?).map (fun e => e.web_id)
      = some (w + ((i : Int) - (p : Int))) := by
  unfold assignWithBaseline
  rw [List.getElem?_map, List.getElem?_enum, List.getElem?_eq_getElem h]
  rfl

theorem assignWithBaseline_shape (w : Int) (p : Nat) (l : List SyncMsg) :
    (assignWithBaseline w p l).map (fun e => (e.folder, e.uid, e.internal_date))
      = l.map (fun m => (m.folder, m.uid, m.internal_date)) := by
  unfold assignWithBaseline
  apply List.ext_getElem?
  intro i
  rw [List.getElem?_map, List.getElem?_map, List.getElem?_map, List.getElem?_enum]
  cases l[i]? <;> rfl

/-- C2: in a Strategy A pass whose combined list, sorted by internal date,
contains the baseline at position `p`, the message at sorted position `i`
is assigned `web_id = baseline_web_id + (i - p)` and keeps its identity;
in particular the spec's three-message instance around baseline
`(INBOX, 100, 5000)` yields exactly 4999, 5000 and 5001. -/
theorem strategyA_baseline_position
    (b : BaselineConfig) (start : Int) (fetched : List SyncMsg) (p : Nat)
    (hne : fetched ≠ [])
    (hp : baselinePos b (sortByDate fetched) = some p) :
    (∀ i : Nat, i < (sortByDate fetched).length →
      (((syncAssign b start fetched).1)[i]?).map (fun e => e.web_id)
        = some (b.baseline_web_id + ((i : Int) - (p : Int)))) ∧
    ((syncAssign b start fetched).1.map (fun e => (e.folder, e.uid, e.internal_date))
      = (sortByDate fetched).map (fun m => (m.folder, m.uid, m.internal_date))) ∧
    ((syncAssign ⟨pyOfString "INBOX", 100, 5000, pyOfString "2025-01-01T12:00:00", [],
          "360.yandex.ru"⟩ 5000
        [⟨pyOfString "INBOX", 100, pyOfString "2025-01-01T12:00:00"⟩,
         ⟨pyOfString "Spam", 50, pyOfString "2025-01-01T10:00:00"⟩,
         ⟨pyOfString "Sent", 200, pyOfString "2025-01-01T14:00:00"⟩]).1.map
        (fun e => (e.folder, e.web_id))
      = [(pyOfString "Spam", 4999), (pyOfString "INBOX", 5000), (pyOfString "Sent", 5001)]) := by
  have hempty : fetched.isEmpty = false := by
    cases fetched with
    | nil => exact absurd rfl hne
    | cons x xs => rfl
  refine ⟨?_, ?_, by decide⟩
  · intro i hi
    simp only [syncAssign, hempty, Bool.false_eq_true, if_false, hp]
    exact assignWithBaseline_web_ids _ _ _ _ hi
  · simp only [syncAssign, hempty, Bool.false_eq_true, if_false, hp]
    exact assignWithBaseline_shape _ _ _

/-- Witness for C2 at the spec's concrete instance. -/
theorem strategyA_baseline_position_witness :
    (([⟨pyOfString "INBOX", 100, pyOfString "2025-01-01T12:00:00"⟩,
       ⟨pyOfString "Spam", 50, pyOfString "2025-01-01T10:00:00"⟩,
       ⟨pyOfString "Sent", 200, pyOfString "2025-01-01T14:00:00"⟩] : List SyncMsg) ≠ []) ∧
    (((syncAssign ⟨pyOfString "INBOX", 100, 5000, pyOfString "2025-01-01T12:00:00", [],
          "360.yandex.ru"⟩ 5000
        [⟨pyOfString "INBOX", 100, pyOfString "2025-01-01T12:00:00"⟩,
         ⟨pyOfString "Spam", 50, pyOfString "2025-01-01T10:00:00"⟩,
         ⟨pyOfString "Sent", 200, pyOfString "2025-01-01T14:00:00"⟩]).1)[0]?).map
        (fun e => e.web_id)
      = some 4999 := by
  refine ⟨by decide, ?_⟩
  have h := strategyA_baseline_position
    ⟨pyOfString "INBOX", 100, 5000, pyOfString "2025-01-01T12:00:00", [], "360.yandex.ru"⟩
    5000
    [⟨pyOfString "INBOX", 100, pyOfString "2025-01-01T12:00:00"⟩,
     ⟨pyOfString "Spam", 50, pyOfString "2025-01-01T10:00:00"⟩,
     ⟨pyOfString "Sent", 200, pyOfString "2025-01-01T14:00:00"⟩]
    1 (by decide) (by decide)
  rw [h.1 0 (by decide)]
  norm_num

theorem get_last_sync_date_update (db : CacheDb) (a : String) (d : PyStr) (w : Int) :
    get_last_sync_date (update_sync_state db a d w) a = some d := by
  simp [get_last_sync_date, update_sync_state, List.find?_cons]

theorem get_max_mid_update (db : CacheDb) (a : String) (d : PyStr) (w : Int) :
    get_max_mid (update_sync_state db a d w) a = some w := by
  simp [get_max_mid, update_sync_state, List.find?_cons]

/-! ## Façade and sync-pass claims: C1, C5, C8.

The staged code cannot execute these paths: `yandex_links.py` calls
`cache.get_web_id` / `cache.get_max_web_id`, which `cache.py` does not
define, and hands `cache.bulk_insert_messages` dicts keyed `"web_id"`
where cache.py 187 reads `m["mid"]`. -/

/-- Every `get_web_url` call dies at its first statement: the attribute
access `cache.get_web_id` (yandex_links.py 160) raises before anything
else runs, so the result is the propagated `AttributeError` and the
state — cache and `_synced` flag — is untouched. -/
theorem get_web_url_run (b : BaselineConfig) (account : String)
    (fetch : PyStr → List SyncMsg) (st : CalcState) (folder : PyStr) (uid : Nat) :
    get_web_url b account fetch st folder uid
      = (.error (.attributeError "get_web_id"), st) := rfl

/-- C5 (code bug): the sync pass never persists the batch or updates the
checkpoint: `_sync_messages` raises `AttributeError` at yandex_links.py
185 — `cache.get_max_web_id` is not defined by `cache.py` — before even
reading the checkpoint seed; and independently, the bulk inserts it would
later reach pass `web_id`-keyed dicts to `cache.bulk_insert_messages`,
whose row builder reads `m["mid"]` (cache.py 187) and raises
`KeyError('mid')` on any nonempty batch. -/
theorem sync_checkpoint_never_updated (b : BaselineConfig) (account : String)
    (fetch : PyStr → List SyncMsg) (db : CacheDb) (m : WebIdDict) (ms : List WebIdDict) :
    sync_messages b account fetch db = .error (.attributeError "get_max_web_id") ∧
    bulk_insert_web_id_dicts account (m :: ms) db = .error (.keyError "mid") :=
  ⟨rfl, rfl⟩

/-- C1 (code bug): the façade never produces any URL — every `get_web_url`
call raises `AttributeError` at yandex_links.py 160, because
`cache.get_web_id` is not defined by `cache.py`, so the sync attempt and
the baseline-anchored fallback are unreachable and no call returns a URL,
contradicting "never raises … every call produces some URL". -/
theorem facade_never_returns_url (b : BaselineConfig) (account : String)
    (fetch : PyStr → List SyncMsg) (st : CalcState) (folder : PyStr) (uid : Nat) :
    (get_web_url b account fetch st folder uid).1
        = .error (.attributeError "get_web_id") ∧
    ∀ url : String, (get_web_url b account fetch st folder uid).1 ≠ .ok url := by
  rw [get_web_url_run]
  exact ⟨rfl, fun url h => by simp at h⟩

/-- C8 (code bug): over any request sequence on one calculator instance
the Sync Engine is never invoked at all: every `get_web_url` call raises
at yandex_links.py 160, before the `_synced` check, so no cache miss ever
occurs and none can trigger `_sync_messages`; every call errors
identically and the state — cache and `_synced` flag alike — never
changes, so the claimed miss-triggers-one-sync behavior never happens. -/
theorem facade_session_never_syncs (b : BaselineConfig) (account : String)
    (fetch : PyStr → List SyncMsg) (st : CalcState) (reqs : List (PyStr × Nat)) :
    runSession b account fetch st reqs
      = (reqs.map (fun _ => Except.error (PyError.attributeError "get_web_id")), st) := by
  induction reqs generalizing st with
  | nil => rfl
  | cons r rs ih =>
    simp only [runSession, get_web_url_run, List.map_cons]
    rw [ih]

/-! ## Web API matching claim: C4 -/

theorem lookupGroup_addToGroup (k : PyStr) (w : WebMsg) :
    ∀ (d : List (PyStr × List WebMsg)) (q : PyStr),
      lookupGroup (addToGroup k w d) q =
        lookupGroup d q ++ (if k = q then [w] else []) := by
  intro d
  induction d with
  | nil =>
    intro q
    by_cases h : k = q
    · simp [addToGroup, lookupGroup, List.find?_cons, h]
    · simp [addToGroup, lookupGroup, List.find?_cons, h,
        show (k == q) = false by simpa using h]
  | cons g gs ih =>
    intro q
    by_cases hgk : g.1 = k
    · by_cases hgq : g.1 = q
      · have hkq : k = q := hgk ▸ hgq
        simp [addToGroup, lookupGroup, List.find?_cons,
          show (g.1 == k) = true by simpa using hgk,
          show (g.1 == q) = true by simpa using hgq, hkq]
      · have hkq : ¬(k = q) := fun h => hgq (hgk.trans h)
        simp [addToGroup, lookupGroup, List.find?_cons,
          show (g.1 == k) = true by simpa using hgk,
          show (g.1 == q) = false by simpa using hgq, hkq]
    · by_cases hgq : g.1 = q
      · have hkq : ¬(k = q) := fun hh => hgk (by rw [hgq, hh])
        simp [addToGroup, lookupGroup, List.find?_cons,
          show (g.1 == k) = false by simpa using hgk,
          show (g.1 == q) = true by simpa using hgq, hkq]
      · have h1 := ih q
        simp only [lookupGroup] at h1
        simp [addToGroup, lookupGroup, List.find?_cons,
          show (g.1 == k) = false by simpa using hgk,
          show (g.1 == q) = false by simpa using hgq, h1]

/-- The subject index groups exactly the web messages whose normalized
subject equals the key, in their original order. -/
theorem lookupGroup_webBySubject (webs : List WebMsg) (k : PyStr) :
    lookupGroup (webBySubject webs) k
      = webs.filter (fun w => normSubject w.subject == k) := by
  suffices h : ∀ d : List (PyStr × List WebMsg),
      lookupGroup (webs.foldl (fun d w => addToGroup (normSubject w.subject) w d) d) k
        = lookupGroup d k ++ webs.filter (fun w => normSubject w.subject == k) by
    simpa [lookupGroup] using h []
  induction webs with
  | nil => intro d; simp
  | cons w ws ih =>
    intro d
    simp only [List.foldl_cons]
    rw [ih (addToGroup (normSubject w.subject) w d), lookupGroup_addToGroup]
    by_cases h : normSubject w.subject = k
    · simp [List.filter_cons, h]
    · simp [List.filter_cons, h, show (normSubject w.subject == k) = false by simpa using h]

theorem bestByDate_go (ts : Int) :
    ∀ (cands : List WebMsg) (w0 : WebMsg),
      ∃ w : WebMsg,
        cands.foldl
          (fun acc w =>
            let diff := |w.timestamp.getD 0 - ts|
            match acc.2 with
            | none => (some w, some diff)
            | some bd => if diff < bd then (some w, some diff) else acc)
          (some w0, some |w0.timestamp.getD 0 - ts|)
          = (some w, some |w.timestamp.getD 0 - ts|) ∧
        (w = w0 ∨ w ∈ cands) ∧
        |w.timestamp.getD 0 - ts| ≤ |w0.timestamp.getD 0 - ts| ∧
        ∀ w' ∈ cands, |w.timestamp.getD 0 - ts| ≤ |w'.timestamp.getD 0 - ts| := by
  intro cands
  induction cands with
  | nil => intro w0; exact ⟨w0, rfl, Or.inl rfl, le_refl _, by simp⟩
  | cons c cs ih =>
    intro w0
    by_cases h : |c.timestamp.getD 0 - ts| < |w0.timestamp.getD 0 - ts|
    · obtain ⟨w, hw, hmem, hle, hmin⟩ := ih c
      refine ⟨w, ?_, ?_, ?_, ?_⟩
      · simpa [h] using hw
      · rcases hmem with rfl | hm
        · exact Or.inr (List.mem_cons_self _ _)
        · exact Or.inr (List.mem_cons_of_mem _ hm)
      · exact le_trans hle (le_of_lt h)
      · intro w' hw'
        rcases List.mem_cons.1 hw' with rfl | hm
        · exact hle
        · exact hmin w' hm
    · obtain ⟨w, hw, hmem, hle, hmin⟩ := ih w0
      refine ⟨w, ?_, ?_, ?_, ?_⟩
      · simpa [h] using hw
      · rcases hmem with rfl | hm
        · exact Or.inl rfl
        · exact Or.inr (List.mem_cons_of_mem _ hm)
      · exact hle
      · intro w' hw'
        rcases List.mem_cons.1 hw' with rfl | hm
        · exact le_trans hle (not_lt.1 h)
        · exact hmin w' hm

/-- The closest-candidate fold returns a candidate at minimal absolute
timestamp difference (the first such one). -/
theorem bestByDate_spec (ts : Int) (cands : List WebMsg) (hne : cands ≠ []) :
    ∃ w : WebMsg,
      bestByDate ts cands = (some w, some |w.timestamp.getD 0 - ts|) ∧
      w ∈ cands ∧
      ∀ w' ∈ cands, |w.timestamp.getD 0 - ts| ≤ |w'.timestamp.getD 0 - ts| := by
  cases cands with
  | nil => exact absurd rfl hne
  | cons c cs =>
    obtain ⟨w, hw, hmem, hle, hmin⟩ := bestByDate_go ts cs c
    refine ⟨w, ?_, ?_, ?_⟩
    · simpa [bestByDate] using hw
    · rcases hmem with rfl | hm
      · exact List.mem_cons_self _ _
      · exact List.mem_cons_of_mem _ hm
    · intro w' hw'
      rcases List.mem_cons.1 hw' with rfl | hm
      · exact hle
      · exact hmin w' hm

/-- C4: for each IMAP message the candidates are exactly the web messages
with equal normalized subject (`Re:`/`Fwd:` prefixes stripped
case-insensitively, trimmed, lowercased); one candidate is matched
unconditionally; among several, a match is a closest-by-timestamp candidate
and only under the 2-minute (120000 ms) bound — a missing date, or every
candidate at least 2 minutes off, yields no match; zero candidates yield no
match. -/
theorem webapi_match_selection (webs : List WebMsg) (im : ImapMsg) :
    (lookupGroup (webBySubject webs) (normSubject im.subject)
      = webs.filter (fun w => normSubject w.subject == normSubject im.subject)) ∧
    (∀ w : WebMsg, lookupGroup (webBySubject webs) (normSubject im.subject) = [w] →
      matchOne (webBySubject webs) im = some w) ∧
    (1 < (lookupGroup (webBySubject webs) (normSubject im.subject)).length →
      (∀ w : WebMsg, matchOne (webBySubject webs) im = some w →
        w ∈ lookupGroup (webBySubject webs) (normSubject im.subject) ∧
        ∃ ts : Int, im.date = some ts ∧ |w.timestamp.getD 0 - ts| < 120000 ∧
          ∀ w' ∈ lookupGroup (webBySubject webs) (normSubject im.subject),
            |w.timestamp.getD 0 - ts| ≤ |w'.timestamp.getD 0 - ts|) ∧
      (∀ ts : Int, im.date = some ts →
        (∃ w' ∈ lookupGroup (webBySubject webs) (normSubject im.subject),
          |w'.timestamp.getD 0 - ts| < 120000) →
        matchOne (webBySubject webs) im ≠ none) ∧
      (im.date = none → matchOne (webBySubject webs) im = none) ∧
      (∀ ts : Int, im.date = some ts →
        (∀ w' ∈ lookupGroup (webBySubject webs) (normSubject im.subject),
          120000 ≤ |w'.timestamp.getD 0 - ts|) →
        matchOne (webBySubject webs) im = none)) ∧
    (lookupGroup (webBySubject webs) (normSubject im.subject) = [] →
      matchOne (webBySubject webs) im = none) := by
  refine ⟨lookupGroup_webBySubject webs _, ?_, ?_, ?_⟩
  · intro w hw
    simp [matchOne, hw]
  · intro hlen
    have hne : lookupGroup (webBySubject webs) (normSubject im.subject) ≠ [] := by
      intro h0; rw [h0] at hlen; simp at hlen
    have hlen1 : ¬(lookupGroup (webBySubject webs) (normSubject im.subject)).length = 1 := by
      omega
    have hmo : matchOne (webBySubject webs) im
        = closestUnder2Min im.date (lookupGroup (webBySubject webs) (normSubject im.subject)) := by
      simp only [matchOne]
      rw [if_neg hlen1, if_pos hlen]
    refine ⟨?_, ?_, ?_, ?_⟩
    · intro w hw
      cases hd : im.date with
      | none => rw [hmo, hd] at hw; cases hw
      | some ts =>
        obtain ⟨wb, hwb, hwbmem, hwbmin⟩ := bestByDate_spec ts _ hne
        rw [hmo, hd] at hw
        simp only [closestUnder2Min, hwb] at hw
        by_cases hb : |wb.timestamp.getD 0 - ts| < 120000
        · rw [if_pos hb] at hw
          cases hw
          exact ⟨hwbmem, ts, rfl, hb, hwbmin⟩
        · rw [if_neg hb] at hw
          cases hw
    · intro ts hd hex
      obtain ⟨w', hw'mem, hw'⟩ := hex
      obtain ⟨wb, hwb, hwbmem, hwbmin⟩ := bestByDate_spec ts _ hne
      have hb : |wb.timestamp.getD 0 - ts| < 120000 :=
        lt_of_le_of_lt (hwbmin w' hw'mem) hw'
      rw [hmo, hd]
      simp only [closestUnder2Min, hwb]
      rw [if_pos hb]
      simp
    · intro hd
      rw [hmo, hd]
      rfl
    · intro ts hd hall
      obtain ⟨wb, hwb, hwbmem, hwbmin⟩ := bestByDate_spec ts _ hne
      have hb : ¬(|wb.timestamp.getD 0 - ts| < 120000) := not_lt.2 (hall wb hwbmem)
      rw [hmo, hd]
      simp only [closestUnder2Min, hwb]
      rw [if_neg hb]
  · intro h0
    simp [matchOne, h0]

/-- Witness for C4 at the spec's instance: IMAP subject `"Re: Budget"`,
two web candidates normalizing to `"budget"`, one 60 s away and one far
off — a match is recorded. -/
theorem webapi_match_selection_witness :
    matchOne
      (webBySubject [⟨71, some 501, pyOfString "Budget", some 1060000⟩,
                     ⟨72, none, pyOfString "budget", some 100000000⟩])
      ⟨1, pyOfString "Re: Budget", some 1000000⟩ ≠ none := by
  have hn0 : normSubject (⟨1, pyOfString "Re: Budget", some 1000000⟩ : ImapMsg).subject
      = pyOfString "budget" := by
    simp [normSubject, stripReFwd, pyStrip, pyOfString, pyLowerChar, isPySpace]
  have hn1 : normSubject (⟨71, some 501, pyOfString "Budget", some 1060000⟩ : WebMsg).subject
      = pyOfString "budget" := by
    simp [normSubject, stripReFwd, pyStrip, pyOfString, pyLowerChar, isPySpace]
  have hn2 : normSubject (⟨72, none, pyOfString "budget", some 100000000⟩ : WebMsg).subject
      = pyOfString "budget" := by
    simp [normSubject, stripReFwd, pyStrip, pyOfString, pyLowerChar, isPySpace]
  have hwb : webBySubject [⟨71, some 501, pyOfString "Budget", some 1060000⟩,
      ⟨72, none, pyOfString "budget", some 100000000⟩]
      = [(pyOfString "budget",
          [⟨71, some 501, pyOfString "Budget", some 1060000⟩,
           ⟨72, none, pyOfString "budget", some 100000000⟩])] := by
    rw [show webBySubject [⟨71, some 501, pyOfString "Budget", some 1060000⟩,
        ⟨72, none, pyOfString "budget", some 100000000⟩]
      = addToGroup (normSubject (⟨72, none, pyOfString "budget", some 100000000⟩ : WebMsg).subject)
          ⟨72, none, pyOfString "budget", some 100000000⟩
          (addToGroup
            (normSubject (⟨71, some 501, pyOfString "Budget", some 1060000⟩ : WebMsg).subject)
            ⟨71, some 501, pyOfString "Budget", some 1060000⟩ []) from rfl, hn1, hn2]
    decide
  have hlen : 1 < (lookupGroup
      (webBySubject [⟨71, some 501, pyOfString "Budget", some 1060000⟩,
        ⟨72, none, pyOfString "budget", some 100000000⟩])
      (normSubject (⟨1, pyOfString "Re: Budget", some 1000000⟩ : ImapMsg).subject)).length := by
    rw [hwb, hn0]; decide
  have hmem : (⟨71, some 501, pyOfString "Budget", some 1060000⟩ : WebMsg) ∈ lookupGroup
      (webBySubject [⟨71, some 501, pyOfString "Budget", some 1060000⟩,
        ⟨72, none, pyOfString "budget", some 100000000⟩])
      (normSubject (⟨1, pyOfString "Re: Budget", some 1000000⟩ : ImapMsg).subject) := by
    rw [hwb, hn0]; decide
  exact ((webapi_match_selection
      [⟨71, some 501, pyOfString "Budget", some 1060000⟩,
       ⟨72, none, pyOfString "budget", some 100000000⟩]
      ⟨1, pyOfString "Re: Budget", some 1000000⟩).2.2.1 hlen).2.1 1000000 rfl
    ⟨⟨71, some 501, pyOfString "Budget", some 1060000⟩, hmem, by decide⟩

/-! ## Codec claims C3 and C6: infrastructure

The round-trip argument walks the decoder through the encoder's base-64
shift output.  `base64Char` values are the only characters the encoder
emits inside a shift sequence for a run of non-direct characters. -/

theorem base64Char_mod (x : Nat) : base64Char x = base64Char (x % 64) := by
  have h : x % 64 % 64 = x % 64 := by omega
  unfold base64Char
  rw [h]

theorem base64Char_small :
    ∀ m : Nat, m < 64 →
      isBase64Char (base64Char m) = true ∧ base64Val (base64Char m) = m ∧
        base64Char m < 128 ∧ base64Char m ≠ 45 ∧ base64Char m ≠ 38 ∧ base64Char m ≠ 44 := by
  intro m hm
  interval_cases m <;> exact ⟨by decide, by decide, by decide, by decide, by decide, by decide⟩

theorem base64Char_mem :
    ∀ x : Nat, isBase64Char (base64Char x) = true ∧ base64Val (base64Char x) = x % 64 ∧
      base64Char x < 128 ∧ base64Char x ≠ 45 ∧ base64Char x ≠ 38 ∧ base64Char x ≠ 44 := by
  intro x
  rw [base64Char_mod]
  exact base64Char_small (x % 64) (Nat.mod_lt _ (by omega))

theorem isBase64Char_base64Char (x : Nat) : isBase64Char (base64Char x) = true :=
  (base64Char_mem x).1

theorem base64Val_base64Char (x : Nat) : base64Val (base64Char x) = x % 64 :=
  (base64Char_mem x).2.1

/-- One decoder step on a base-64 character that only accumulates bits. -/
theorem decLoop_b64_acc (x : Nat) (rest : List Nat) (bits buf surr bits' buf' : Nat)
    (h : bits + 6 < 16) (hb : bits + 6 = bits') (hbuf : buf * 64 + x % 64 = buf') :
    pyUtf7DecodeLoop (base64Char x :: rest) true bits buf surr
      = pyUtf7DecodeLoop rest true bits' buf' surr := by
  subst hb hbuf
  rw [pyUtf7DecodeLoop]
  simp [isBase64Char_base64Char, base64Val_base64Char, Nat.not_le.2 h]

/-- One decoder step that completes a 16-bit unit `w` which is not a
surrogate, with no surrogate pending: `w` is emitted. -/
theorem decLoop_b64_emit (x : Nat) (rest : List Nat) (bits buf w bits' buf' : Nat)
    (h : 16 ≤ bits + 6) (hw : (buf * 64 + x % 64) / 2 ^ (bits + 6 - 16) = w)
    (hb : bits + 6 - 16 = bits')
    (hbuf : (buf * 64 + x % 64) % 2 ^ (bits + 6 - 16) = buf')
    (hout : isHighSurrogate w = false) :
    pyUtf7DecodeLoop (base64Char x :: rest) true bits buf 0
      = (pyUtf7DecodeLoop rest true bits' buf' 0).map
          (fun r => w :: r) := by
  subst hw hb hbuf
  have h10 : bits + 6 - 16 = bits - 10 := by omega
  rw [h10] at hout
  rw [pyUtf7DecodeLoop]
  simp [isBase64Char_base64Char, base64Val_base64Char, h, hout, h10]

/-- One decoder step that completes a high surrogate `w` with none pending:
nothing is emitted, the surrogate is stored. -/
theorem decLoop_b64_sethigh (x : Nat) (rest : List Nat) (bits buf w bits' buf' : Nat)
    (h : 16 ≤ bits + 6) (hw : (buf * 64 + x % 64) / 2 ^ (bits + 6 - 16) = w)
    (hb : bits + 6 - 16 = bits')
    (hbuf : (buf * 64 + x % 64) % 2 ^ (bits + 6 - 16) = buf')
    (hout : isHighSurrogate w = true) :
    pyUtf7DecodeLoop (base64Char x :: rest) true bits buf 0
      = pyUtf7DecodeLoop rest true bits' buf' w := by
  subst hw hb hbuf
  have h10 : bits + 6 - 16 = bits - 10 := by omega
  rw [h10] at hout
  rw [pyUtf7DecodeLoop]
  simp [isBase64Char_base64Char, base64Val_base64Char, h, hout, h10]

/-- One decoder step that completes a low surrogate `w` while a high
surrogate is pending: the pair is combined and emitted. -/
theorem decLoop_b64_join (x : Nat) (rest : List Nat) (bits buf surr w bits' buf' : Nat)
    (h : 16 ≤ bits + 6) (hsurr : surr ≠ 0)
    (hw : (buf * 64 + x % 64) / 2 ^ (bits + 6 - 16) = w)
    (hb : bits + 6 - 16 = bits')
    (hbuf : (buf * 64 + x % 64) % 2 ^ (bits + 6 - 16) = buf')
    (hout : isLowSurrogate w = true) :
    pyUtf7DecodeLoop (base64Char x :: rest) true bits buf surr
      = (pyUtf7DecodeLoop rest true bits' buf' 0).map
          (fun r => joinSurrogates surr w :: r) := by
  subst hw hb hbuf
  have h10 : bits + 6 - 16 = bits - 10 := by omega
  rw [h10] at hout
  rw [pyUtf7DecodeLoop]
  simp [isBase64Char_base64Char, base64Val_base64Char, h, hsurr, hout, h10]

theorem flushB64_16 (v : Nat) : flushB64 16 v =
    ([base64Char (v / 2 ^ 10), base64Char (v % 2 ^ 10 / 2 ^ 4)], 4, v % 2 ^ 10 % 2 ^ 4) := rfl

theorem flushB64_18 (v : Nat) : flushB64 18 v =
    ([base64Char (v / 2 ^ 12), base64Char (v % 2 ^ 12 / 2 ^ 6),
      base64Char (v % 2 ^ 12 % 2 ^ 6 / 2 ^ 0)], 0, v % 2 ^ 12 % 2 ^ 6 % 2 ^ 0) := rfl

theorem flushB64_20 (v : Nat) : flushB64 20 v =
    ([base64Char (v / 2 ^ 14), base64Char (v % 2 ^ 14 / 2 ^ 8),
      base64Char (v % 2 ^ 14 % 2 ^ 8 / 2 ^ 2)], 2, v % 2 ^ 14 % 2 ^ 8 % 2 ^ 2) := rfl

theorem pushUnit_eq (u bits buf : Nat) :
    pushUnit u bits buf = flushB64 (bits + 16) (buf * 2 ^ 16 + u) := rfl

theorem encodeChar_bmp (c bits buf : Nat) (h : c < 0x10000) :
    pyUtf7EncodeChar c bits buf = pushUnit c bits buf := by
  unfold pyUtf7EncodeChar
  rw [if_neg (by omega)]

theorem encodeChar_astral (c bits buf : Nat) (h : 0x10000 ≤ c) :
    pyUtf7EncodeChar c bits buf =
      ((pushUnit (0xD800 + (c - 0x10000) / 0x400) bits buf).1 ++
         (pushUnit (0xDC00 + (c - 0x10000) % 0x400)
           (pushUnit (0xD800 + (c - 0x10000) / 0x400) bits buf).2.1
           (pushUnit (0xD800 + (c - 0x10000) / 0x400) bits buf).2.2).1,
        (pushUnit (0xDC00 + (c - 0x10000) % 0x400)
           (pushUnit (0xD800 + (c - 0x10000) / 0x400) bits buf).2.1
           (pushUnit (0xD800 + (c - 0x10000) / 0x400) bits buf).2.2).2) := by
  unfold pyUtf7EncodeChar
  rw [if_pos h]

theorem high_ne_zero (s : Nat) (h : isHighSurrogate s = true) : s ≠ 0 := by
  simp [isHighSurrogate] at h
  omega

theorem hi_isHigh (c : Nat) (h1 : 0x10000 ≤ c) (h2 : c < 0x110000) :
    isHighSurrogate (0xD800 + (c - 0x10000) / 0x400) = true := by
  simp [isHighSurrogate]
  omega

theorem lo_isLow (c : Nat) : isLowSurrogate (0xDC00 + (c - 0x10000) % 0x400) = true := by
  simp [isLowSurrogate]
  omega

theorem join_hi_lo (c : Nat) (h1 : 0x10000 ≤ c) (h2 : c < 0x110000) :
    joinSurrogates (0xD800 + (c - 0x10000) / 0x400) (0xDC00 + (c - 0x10000) % 0x400) = c := by
  unfold joinSurrogates
  omega

/-- The decoder consuming a terminating `-` with clean zero-padding and no
pending surrogate: the dash is absorbed. -/
theorem decLoop_dash (rest : List Nat) (bits : Nat) (hb : bits < 6) :
    pyUtf7DecodeLoop (45 :: rest) true bits 0 0
      = pyUtf7DecodeLoop rest false 0 0 0 := by
  rw [pyUtf7DecodeLoop]
  simp [isBase64Char, Nat.not_le.2 hb]

theorem decChain_A_bmp (c : Nat) (hbmp : c < 0x10000) (tail : List Nat) :
    pyUtf7DecodeLoop ((pyUtf7EncodeChar c 0 0).1 ++ tail) true 0 0 0
      = (pyUtf7DecodeLoop tail true 12 (c / 2 ^ 4) 0).map (fun r => ([] : List Nat) ++ r) := by
  rw [encodeChar_bmp c 0 0 hbmp, pushUnit_eq,
    show (0 : Nat) + 16 = 16 from rfl, flushB64_16]
  simp only [List.cons_append, List.nil_append]
  rw [decLoop_b64_acc _ _ 0 0 0 6 (c / 2 ^ 10) (by norm_num) (by omega) (by omega)]
  rw [decLoop_b64_acc _ _ 6 (c / 2 ^ 10) 0 12 (c / 2 ^ 4) (by norm_num) (by omega) (by omega)]
  simp

theorem decChain_A_astral (c : Nat) (hlt : c < 0x110000) (hge : 0x10000 ≤ c)
    (tail : List Nat) :
    pyUtf7DecodeLoop ((pyUtf7EncodeChar c 0 0).1 ++ tail) true 0 0 0
      = (pyUtf7DecodeLoop tail true 14 ((0xDC00 + (c - 0x10000) % 0x400) / 2 ^ 2)
          (0xD800 + (c - 0x10000) / 0x400)).map (fun r => ([] : List Nat) ++ r) := by
  have hH := hi_isHigh c hge hlt
  rw [encodeChar_astral c 0 0 hge]
  simp only [pushUnit_eq, show (0 : Nat) + 16 = 16 from rfl, flushB64_16,
    show (4 : Nat) + 16 = 20 from rfl, flushB64_20,
    List.cons_append, List.nil_append, List.append_assoc]
  rw [decLoop_b64_acc _ _ 0 0 0 6 ((0xD800 + (c - 0x10000) / 0x400) / 2 ^ 10)
    (by norm_num) (by omega) (by omega)]
  rw [decLoop_b64_acc _ _ 6 ((0xD800 + (c - 0x10000) / 0x400) / 2 ^ 10) 0 12
    ((0xD800 + (c - 0x10000) / 0x400) / 2 ^ 4) (by norm_num) (by omega) (by omega)]
  rw [decLoop_b64_sethigh _ _ 12 ((0xD800 + (c - 0x10000) / 0x400) / 2 ^ 4)
    (0xD800 + (c - 0x10000) / 0x400) 2 ((0xDC00 + (c - 0x10000) % 0x400) / 2 ^ 14)
    (by norm_num) (by omega) (by omega) (by omega) hH]
  rw [decLoop_b64_acc _ _ 2 ((0xDC00 + (c - 0x10000) % 0x400) / 2 ^ 14) _ 8
    ((0xDC00 + (c - 0x10000) % 0x400) / 2 ^ 8) (by norm_num) (by omega) (by omega)]
  rw [decLoop_b64_acc _ _ 8 ((0xDC00 + (c - 0x10000) % 0x400) / 2 ^ 8) _ 14
    ((0xDC00 + (c - 0x10000) % 0x400) / 2 ^ 2) (by norm_num) (by omega) (by omega)]
  simp

theorem decChain_P2_bmp_s0 (c u : Nat) (hbmp : c < 0x10000) (hu : u < 2 ^ 16)
    (hhi : isHighSurrogate c = false) (huhi : isHighSurrogate u = false) (tail : List Nat) :
    pyUtf7DecodeLoop ((pyUtf7EncodeChar c 2 (u % 2 ^ 2)).1 ++ tail) true 14 (u / 2 ^ 2) 0
      = (pyUtf7DecodeLoop tail true 0 0 0).map (fun r => [u, c] ++ r) := by
  rw [encodeChar_bmp c _ _ hbmp, pushUnit_eq,
    show (2 : Nat) + 16 = 18 from rfl, flushB64_18]
  simp only [List.cons_append, List.nil_append]
  rw [decLoop_b64_emit _ _ 14 (u / 2 ^ 2) u 4 (c / 2 ^ 12) (by norm_num) (by omega)
    (by omega) (by omega) huhi]
  rw [decLoop_b64_acc _ _ 4 (c / 2 ^ 12) 0 10 (c / 2 ^ 6) (by norm_num) (by omega) (by omega)]
  rw [decLoop_b64_emit _ _ 10 (c / 2 ^ 6) c 0 0 (by norm_num) (by omega)
    (by omega) (by omega) hhi]
  simp only [Option.map_map]
  exact congrArg₂ Option.map (by funext r; simp) rfl

theorem decChain_P2_bmp_s1 (c u surr : Nat) (hbmp : c < 0x10000) (hu : u < 2 ^ 16)
    (hhi : isHighSurrogate c = false) (hshigh : isHighSurrogate surr = true)
    (hulow : isLowSurrogate u = true) (tail : List Nat) :
    pyUtf7DecodeLoop ((pyUtf7EncodeChar c 2 (u % 2 ^ 2)).1 ++ tail) true 14 (u / 2 ^ 2) surr
      = (pyUtf7DecodeLoop tail true 0 0 0).map (fun r => [joinSurrogates surr u, c] ++ r) := by
  rw [encodeChar_bmp c _ _ hbmp, pushUnit_eq,
    show (2 : Nat) + 16 = 18 from rfl, flushB64_18]
  simp only [List.cons_append, List.nil_append]
  rw [decLoop_b64_join _ _ 14 (u / 2 ^ 2) surr u 4 (c / 2 ^ 12) (by norm_num)
    (high_ne_zero surr hshigh) (by omega) (by omega) (by omega) hulow]
  rw [decLoop_b64_acc _ _ 4 (c / 2 ^ 12) 0 10 (c / 2 ^ 6) (by norm_num) (by omega) (by omega)]
  rw [decLoop_b64_emit _ _ 10 (c / 2 ^ 6) c 0 0 (by norm_num) (by omega)
    (by omega) (by omega) hhi]
  simp only [Option.map_map]
  exact congrArg₂ Option.map (by funext r; simp) rfl

theorem decChain_P4_bmp_s0 (c u : Nat) (hbmp : c < 0x10000) (hu : u < 2 ^ 16)
    (huhi : isHighSurrogate u = false) (tail : List Nat) :
    pyUtf7DecodeLoop ((pyUtf7EncodeChar c 4 (u % 2 ^ 4)).1 ++ tail) true 12 (u / 2 ^ 4) 0
      = (pyUtf7DecodeLoop tail true 14 (c / 2 ^ 2) 0).map (fun r => [u] ++ r) := by
  rw [encodeChar_bmp c _ _ hbmp, pushUnit_eq,
    show (4 : Nat) + 16 = 20 from rfl, flushB64_20]
  simp only [List.cons_append, List.nil_append]
  rw [decLoop_b64_emit _ _ 12 (u / 2 ^ 4) u 2 (c / 2 ^ 14) (by norm_num) (by omega)
    (by omega) (by omega) huhi]
  rw [decLoop_b64_acc _ _ 2 (c / 2 ^ 14) 0 8 (c / 2 ^ 8) (by norm_num) (by omega) (by omega)]
  rw [decLoop_b64_acc _ _ 8 (c / 2 ^ 8) 0 14 (c / 2 ^ 2) (by norm_num) (by omega) (by omega)]

theorem decChain_P4_bmp_s1 (c u surr : Nat) (hbmp : c < 0x10000) (hu : u < 2 ^ 16)
    (hshigh : isHighSurrogate surr = true) (hulow : isLowSurrogate u = true)
    (tail : List Nat) :
    pyUtf7DecodeLoop ((pyUtf7EncodeChar c 4 (u % 2 ^ 4)).1 ++ tail) true 12 (u / 2 ^ 4) surr
      = (pyUtf7DecodeLoop tail true 14 (c / 2 ^ 2) 0).map
          (fun r => [joinSurrogates surr u] ++ r) := by
  rw [encodeChar_bmp c _ _ hbmp, pushUnit_eq,
    show (4 : Nat) + 16 = 20 from rfl, flushB64_20]
  simp only [List.cons_append, List.nil_append]
  rw [decLoop_b64_join _ _ 12 (u / 2 ^ 4) surr u 2 (c / 2 ^ 14) (by norm_num)
    (high_ne_zero surr hshigh) (by omega) (by omega) (by omega) hulow]
  rw [decLoop_b64_acc _ _ 2 (c / 2 ^ 14) 0 8 (c / 2 ^ 8) (by norm_num) (by omega) (by omega)]
  rw [decLoop_b64_acc _ _ 8 (c / 2 ^ 8) 0 14 (c / 2 ^ 2) (by norm_num) (by omega) (by omega)]

theorem decChain_P2_astral_s0 (c u : Nat) (hlt : c < 0x110000) (hge : 0x10000 ≤ c)
    (hu : u < 2 ^ 16) (huhi : isHighSurrogate u = false) (tail : List Nat) :
    pyUtf7DecodeLoop ((pyUtf7EncodeChar c 2 (u % 2 ^ 2)).1 ++ tail) true 14 (u / 2 ^ 2) 0
      = (pyUtf7DecodeLoop tail true 12 ((0xDC00 + (c - 0x10000) % 0x400) / 2 ^ 4)
          (0xD800 + (c - 0x10000) / 0x400)).map (fun r => [u] ++ r) := by
  have hH := hi_isHigh c hge hlt
  rw [encodeChar_astral c _ _ hge]
  simp only [pushUnit_eq, show (2 : Nat) + 16 = 18 from rfl, flushB64_18,
    show (0 : Nat) + 16 = 16 from rfl, flushB64_16,
    List.cons_append, List.nil_append, List.append_assoc]
  rw [decLoop_b64_emit _ _ 14 (u / 2 ^ 2) u 4
    ((0xD800 + (c - 0x10000) / 0x400) / 2 ^ 12) (by norm_num) (by omega)
    (by omega) (by omega) huhi]
  rw [decLoop_b64_acc _ _ 4 ((0xD800 + (c - 0x10000) / 0x400) / 2 ^ 12) 0 10
    ((0xD800 + (c - 0x10000) / 0x400) / 2 ^ 6) (by norm_num) (by omega) (by omega)]
  rw [decLoop_b64_sethigh _ _ 10 ((0xD800 + (c - 0x10000) / 0x400) / 2 ^ 6)
    (0xD800 + (c - 0x10000) / 0x400) 0 0 (by norm_num) (by omega) (by omega)
    (by omega) hH]
  rw [decLoop_b64_acc _ _ 0 0 _ 6 ((0xDC00 + (c - 0x10000) % 0x400) / 2 ^ 10)
    (by norm_num) (by omega) (by omega)]
  rw [decLoop_b64_acc _ _ 6 ((0xDC00 + (c - 0x10000) % 0x400) / 2 ^ 10) _ 12
    ((0xDC00 + (c - 0x10000) % 0x400) / 2 ^ 4) (by norm_num) (by omega) (by omega)]

theorem decChain_P2_astral_s1 (c u surr : Nat) (hlt : c < 0x110000) (hge : 0x10000 ≤ c)
    (hu : u < 2 ^ 16) (hshigh : isHighSurrogate surr = true)
    (hulow : isLowSurrogate u = true) (tail : List Nat) :
    pyUtf7DecodeLoop ((pyUtf7EncodeChar c 2 (u % 2 ^ 2)).1 ++ tail) true 14 (u / 2 ^ 2) surr
      = (pyUtf7DecodeLoop tail true 12 ((0xDC00 + (c - 0x10000) % 0x400) / 2 ^ 4)
          (0xD800 + (c - 0x10000) / 0x400)).map (fun r => [joinSurrogates surr u] ++ r) := by
  have hH := hi_isHigh c hge hlt
  rw [encodeChar_astral c _ _ hge]
  simp only [pushUnit_eq, show (2 : Nat) + 16 = 18 from rfl, flushB64_18,
    show (0 : Nat) + 16 = 16 from rfl, flushB64_16,
    List.cons_append, List.nil_append, List.append_assoc]
  rw [decLoop_b64_join _ _ 14 (u / 2 ^ 2) surr u 4
    ((0xD800 + (c - 0x10000) / 0x400) / 2 ^ 12) (by norm_num)
    (high_ne_zero surr hshigh) (by omega) (by omega) (by omega) hulow]
  rw [decLoop_b64_acc _ _ 4 ((0xD800 + (c - 0x10000) / 0x400) / 2 ^ 12) 0 10
    ((0xD800 + (c - 0x10000) / 0x400) / 2 ^ 6) (by norm_num) (by omega) (by omega)]
  rw [decLoop_b64_sethigh _ _ 10 ((0xD800 + (c - 0x10000) / 0x400) / 2 ^ 6)
    (0xD800 + (c - 0x10000) / 0x400) 0 0 (by norm_num) (by omega) (by omega)
    (by omega) hH]
  rw [decLoop_b64_acc _ _ 0 0 _ 6 ((0xDC00 + (c - 0x10000) % 0x400) / 2 ^ 10)
    (by norm_num) (by omega) (by omega)]
  rw [decLoop_b64_acc _ _ 6 ((0xDC00 + (c - 0x10000) % 0x400) / 2 ^ 10) _ 12
    ((0xDC00 + (c - 0x10000) % 0x400) / 2 ^ 4) (by norm_num) (by omega) (by omega)]

theorem decChain_P4_astral_s0 (c u : Nat) (hlt : c < 0x110000) (hge : 0x10000 ≤ c)
    (hu : u < 2 ^ 16) (huhi : isHighSurrogate u = false) (tail : List Nat) :
    pyUtf7DecodeLoop ((pyUtf7EncodeChar c 4 (u % 2 ^ 4)).1 ++ tail) true 12 (u / 2 ^ 4) 0
      = (pyUtf7DecodeLoop tail true 0 0 0).map (fun r => [u, c] ++ r) := by
  have hH := hi_isHigh c hge hlt
  have hL := lo_isLow c
  have hJ := join_hi_lo c hge hlt
  rw [encodeChar_astral c _ _ hge]
  simp only [pushUnit_eq, show (4 : Nat) + 16 = 20 from rfl, flushB64_20,
    show (2 : Nat) + 16 = 18 from rfl, flushB64_18,
    List.cons_append, List.nil_append, List.append_assoc]
  rw [decLoop_b64_emit _ _ 12 (u / 2 ^ 4) u 2
    ((0xD800 + (c - 0x10000) / 0x400) / 2 ^ 14) (by norm_num) (by omega)
    (by omega) (by omega) huhi]
  rw [decLoop_b64_acc _ _ 2 ((0xD800 + (c - 0x10000) / 0x400) / 2 ^ 14) 0 8
    ((0xD800 + (c - 0x10000) / 0x400) / 2 ^ 8) (by norm_num) (by omega) (by omega)]
  rw [decLoop_b64_acc _ _ 8 ((0xD800 + (c - 0x10000) / 0x400) / 2 ^ 8) 0 14
    ((0xD800 + (c - 0x10000) / 0x400) / 2 ^ 2) (by norm_num) (by omega) (by omega)]
  rw [decLoop_b64_sethigh _ _ 14 ((0xD800 + (c - 0x10000) / 0x400) / 2 ^ 2)
    (0xD800 + (c - 0x10000) / 0x400) 4 ((0xDC00 + (c - 0x10000) % 0x400) / 2 ^ 12)
    (by norm_num) (by omega) (by omega) (by omega) hH]
  rw [decLoop_b64_acc _ _ 4 ((0xDC00 + (c - 0x10000) % 0x400) / 2 ^ 12) _ 10
    ((0xDC00 + (c - 0x10000) % 0x400) / 2 ^ 6) (by norm_num) (by omega) (by omega)]
  rw [decLoop_b64_join _ _ 10 ((0xDC00 + (c - 0x10000) % 0x400) / 2 ^ 6)
    (0xD800 + (c - 0x10000) / 0x400) (0xDC00 + (c - 0x10000) % 0x400) 0 0
    (by norm_num) (high_ne_zero _ hH) (by omega) (by omega) (by omega) hL]
  simp only [Option.map_map]
  exact congrArg₂ Option.map (by funext r; simp [hJ]) rfl

theorem decChain_P4_astral_s1 (c u surr : Nat) (hlt : c < 0x110000) (hge : 0x10000 ≤ c)
    (hu : u < 2 ^ 16) (hshigh : isHighSurrogate surr = true)
    (hulow : isLowSurrogate u = true) (tail : List Nat) :
    pyUtf7DecodeLoop ((pyUtf7EncodeChar c 4 (u % 2 ^ 4)).1 ++ tail) true 12 (u / 2 ^ 4) surr
      = (pyUtf7DecodeLoop tail true 0 0 0).map
          (fun r => [joinSurrogates surr u, c] ++ r) := by
  have hH := hi_isHigh c hge hlt
  have hL := lo_isLow c
  have hJ := join_hi_lo c hge hlt
  rw [encodeChar_astral c _ _ hge]
  simp only [pushUnit_eq, show (4 : Nat) + 16 = 20 from rfl, flushB64_20,
    show (2 : Nat) + 16 = 18 from rfl, flushB64_18,
    List.cons_append, List.nil_append, List.append_assoc]
  rw [decLoop_b64_join _ _ 12 (u / 2 ^ 4) surr u 2
    ((0xD800 + (c - 0x10000) / 0x400) / 2 ^ 14) (by norm_num)
    (high_ne_zero surr hshigh) (by omega) (by omega) (by omega) hulow]
  rw [decLoop_b64_acc _ _ 2 ((0xD800 + (c - 0x10000) / 0x400) / 2 ^ 14) 0 8
    ((0xD800 + (c - 0x10000) / 0x400) / 2 ^ 8) (by norm_num) (by omega) (by omega)]
  rw [decLoop_b64_acc _ _ 8 ((0xD800 + (c - 0x10000) / 0x400) / 2 ^ 8) 0 14
    ((0xD800 + (c - 0x10000) / 0x400) / 2 ^ 2) (by norm_num) (by omega) (by omega)]
  rw [decLoop_b64_sethigh _ _ 14 ((0xD800 + (c - 0x10000) / 0x400) / 2 ^ 2)
    (0xD800 + (c - 0x10000) / 0x400) 4 ((0xDC00 + (c - 0x10000) % 0x400) / 2 ^ 12)
    (by norm_num) (by omega) (by omega) (by omega) hH]
  rw [decLoop_b64_acc _ _ 4 ((0xDC00 + (c - 0x10000) % 0x400) / 2 ^ 12) _ 10
    ((0xDC00 + (c - 0x10000) % 0x400) / 2 ^ 6) (by norm_num) (by omega) (by omega)]
  rw [decLoop_b64_join _ _ 10 ((0xDC00 + (c - 0x10000) % 0x400) / 2 ^ 6)
    (0xD800 + (c - 0x10000) / 0x400) (0xDC00 + (c - 0x10000) % 0x400) 0 0
    (by norm_num) (high_ne_zero _ hH) (by omega) (by omega) (by omega) hL]
  simp only [Option.map_map]
  exact congrArg₂ Option.map (by funext r; simp [hJ]) rfl

theorem encPair_A_bmp (c : Nat) (hbmp : c < 0x10000) :
    (pyUtf7EncodeChar c 0 0).2 = (4, c % 2 ^ 4) := by
  rw [encodeChar_bmp c 0 0 hbmp, pushUnit_eq,
    show (0 : Nat) + 16 = 16 from rfl, flushB64_16]
  simp only [Prod.mk.injEq, true_and]
  omega

theorem encPair_A_astral (c : Nat) (hge : 0x10000 ≤ c) :
    (pyUtf7EncodeChar c 0 0).2 = (2, (0xDC00 + (c - 0x10000) % 0x400) % 2 ^ 2) := by
  have h1 : (pushUnit (0xD800 + (c - 0x10000) / 0x400) 0 0).2
      = (4, (0xD800 + (c - 0x10000) / 0x400) % 2 ^ 4) := by
    rw [pushUnit_eq, show (0 : Nat) + 16 = 16 from rfl, flushB64_16]
    simp only [Prod.mk.injEq, true_and]
    omega
  rw [encodeChar_astral c 0 0 hge]
  show (pushUnit (0xDC00 + (c - 0x10000) % 0x400)
      (pushUnit (0xD800 + (c - 0x10000) / 0x400) 0 0).2.1
      (pushUnit (0xD800 + (c - 0x10000) / 0x400) 0 0).2.2).2
    = (2, (0xDC00 + (c - 0x10000) % 0x400) % 2 ^ 2)
  rw [h1]
  show (pushUnit (0xDC00 + (c - 0x10000) % 0x400) 4
      ((0xD800 + (c - 0x10000) / 0x400) % 2 ^ 4)).2
    = (2, (0xDC00 + (c - 0x10000) % 0x400) % 2 ^ 2)
  rw [pushUnit_eq, show (4 : Nat) + 16 = 20 from rfl, flushB64_20]
  simp only [Prod.mk.injEq, true_and]
  omega

theorem encPair_P2_bmp (c u : Nat) (hbmp : c < 0x10000) :
    (pyUtf7EncodeChar c 2 (u % 2 ^ 2)).2 = (0, 0) := by
  rw [encodeChar_bmp c _ _ hbmp, pushUnit_eq,
    show (2 : Nat) + 16 = 18 from rfl, flushB64_18]
  simp only [Prod.mk.injEq, true_and]
  omega

theorem encPair_P4_bmp (c u : Nat) (hbmp : c < 0x10000) :
    (pyUtf7EncodeChar c 4 (u % 2 ^ 4)).2 = (2, c % 2 ^ 2) := by
  rw [encodeChar_bmp c _ _ hbmp, pushUnit_eq,
    show (4 : Nat) + 16 = 20 from rfl, flushB64_20]
  simp only [Prod.mk.injEq, true_and]
  omega

theorem encPair_P2_astral (c u : Nat) (hge : 0x10000 ≤ c) :
    (pyUtf7EncodeChar c 2 (u % 2 ^ 2)).2
      = (4, (0xDC00 + (c - 0x10000) % 0x400) % 2 ^ 4) := by
  rw [encodeChar_astral c _ _ hge]
  simp only [pushUnit_eq, show (2 : Nat) + 16 = 18 from rfl, flushB64_18,
    show (0 : Nat) + 16 = 16 from rfl, flushB64_16, Prod.mk.injEq, true_and]
  omega

theorem encChar_astral_snd (c bits buf : Nat) (h : 0x10000 ≤ c) :
    (pyUtf7EncodeChar c bits buf).2
      = (pushUnit (0xDC00 + (c - 0x10000) % 0x400)
          (pushUnit (0xD800 + (c - 0x10000) / 0x400) bits buf).2.1
          (pushUnit (0xD800 + (c - 0x10000) / 0x400) bits buf).2.2).2 := by
  rw [encodeChar_astral c bits buf h]

theorem encPair_P4_astral (c u : Nat) (hge : 0x10000 ≤ c) :
    (pyUtf7EncodeChar c 4 (u % 2 ^ 4)).2 = (0, 0) := by
  have h1 : (pushUnit (0xD800 + (c - 0x10000) / 0x400) 4 (u % 2 ^ 4)).2
      = (2, (0xD800 + (c - 0x10000) / 0x400) % 2 ^ 2) := by
    rw [pushUnit_eq, show (4 : Nat) + 16 = 20 from rfl, flushB64_20]
    simp only [Prod.mk.injEq, true_and]
    omega
  have h2 := congrArg
    (fun p : Nat × Nat => (pushUnit (0xDC00 + (c - 0x10000) % 0x400) p.1 p.2).2) h1
  refine (encChar_astral_snd c 4 (u % 2 ^ 4) hge).trans (h2.trans ?_)
  show (pushUnit (0xDC00 + (c - 0x10000) % 0x400) 2
      ((0xD800 + (c - 0x10000) / 0x400) % 2 ^ 2)).2 = (0, 0)
  rw [pushUnit_eq, show (2 : Nat) + 16 = 18 from rfl, flushB64_18]
  simp only [Prod.mk.injEq, true_and]
  omega

/-- One run character advances encoder and decoder together: from any
coupled state, the decoder consumes exactly the characters the encoder
emits, the coupled-state invariant is re-established, and the pending
output grows by `c`. -/
theorem shift_step (c : Nat) (hc : RunChar c) (ebits ebuf dbits dbuf surr : Nat)
    (pending : List Nat) (hInv : ShiftInv ebits ebuf dbits dbuf surr pending)
    (tail : List Nat) :
    ∃ ebits' ebuf' dbits' dbuf' surr' pending' E,
      (pyUtf7EncodeChar c ebits ebuf).2 = (ebits', ebuf') ∧
      ShiftInv ebits' ebuf' dbits' dbuf' surr' pending' ∧
      pending ++ [c] = E ++ pending' ∧
      pyUtf7DecodeLoop ((pyUtf7EncodeChar c ebits ebuf).1 ++ tail) true dbits dbuf surr
        = (pyUtf7DecodeLoop tail true dbits' dbuf' surr').map (fun r => E ++ r) := by
  obtain ⟨hlt, hhi, hlo, hdir⟩ := hc
  rcases hInv with ⟨he, hb, hd, hdb, hs, hp⟩ | ⟨u, he24, hu, hb, hd, hdb, hsub⟩
  · subst he hb hd hdb hs hp
    by_cases hbmp : c < 0x10000
    · exact ⟨4, c % 2 ^ 4, 12, c / 2 ^ 4, 0, [c], [], encPair_A_bmp c hbmp,
        Or.inr ⟨c, Or.inr rfl, by omega, by omega, by omega, rfl,
          Or.inl ⟨rfl, hhi, hlo, rfl⟩⟩,
        rfl, decChain_A_bmp c hbmp tail⟩
    · have hge : 0x10000 ≤ c := by omega
      exact ⟨2, (0xDC00 + (c - 0x10000) % 0x400) % 2 ^ 2,
        14, (0xDC00 + (c - 0x10000) % 0x400) / 2 ^ 2,
        0xD800 + (c - 0x10000) / 0x400, [c], [], encPair_A_astral c hge,
        Or.inr ⟨0xDC00 + (c - 0x10000) % 0x400, Or.inl rfl, by omega, rfl, rfl, rfl,
          Or.inr ⟨hi_isHigh c hge hlt, lo_isLow c, by rw [join_hi_lo c hge hlt]⟩⟩,
        rfl, decChain_A_astral c hlt hge tail⟩
  · by_cases hbmp : c < 0x10000
    · rcases he24 with he2 | he4
      · subst he2 hb hd hdb
        rcases hsub with ⟨hs0, huhi, hulo, hpend⟩ | ⟨hshigh, hulow, hpend⟩
        · subst hs0 hpend
          exact ⟨0, 0, 0, 0, 0, [], [u, c], encPair_P2_bmp c u hbmp,
            Or.inl ⟨rfl, rfl, rfl, rfl, rfl, rfl⟩, by simp,
            decChain_P2_bmp_s0 c u hbmp hu hhi huhi tail⟩
        · subst hpend
          exact ⟨0, 0, 0, 0, 0, [], [joinSurrogates surr u, c], encPair_P2_bmp c u hbmp,
            Or.inl ⟨rfl, rfl, rfl, rfl, rfl, rfl⟩, by simp,
            decChain_P2_bmp_s1 c u surr hbmp hu hhi hshigh hulow tail⟩
      · subst he4 hb hd hdb
        rcases hsub with ⟨hs0, huhi, hulo, hpend⟩ | ⟨hshigh, hulow, hpend⟩
        · subst hs0 hpend
          exact ⟨2, c % 2 ^ 2, 14, c / 2 ^ 2, 0, [c], [u], encPair_P4_bmp c u hbmp,
            Or.inr ⟨c, Or.inl rfl, by omega, rfl, rfl, rfl, Or.inl ⟨rfl, hhi, hlo, rfl⟩⟩,
            rfl, decChain_P4_bmp_s0 c u hbmp hu huhi tail⟩
        · subst hpend
          exact ⟨2, c % 2 ^ 2, 14, c / 2 ^ 2, 0, [c], [joinSurrogates surr u],
            encPair_P4_bmp c u hbmp,
            Or.inr ⟨c, Or.inl rfl, by omega, rfl, rfl, rfl, Or.inl ⟨rfl, hhi, hlo, rfl⟩⟩,
            rfl, decChain_P4_bmp_s1 c u surr hbmp hu hshigh hulow tail⟩
    · have hge : 0x10000 ≤ c := by omega
      rcases he24 with he2 | he4
      · subst he2 hb hd hdb
        rcases hsub with ⟨hs0, huhi, hulo, hpend⟩ | ⟨hshigh, hulow, hpend⟩
        · subst hs0 hpend
          exact ⟨4, (0xDC00 + (c - 0x10000) % 0x400) % 2 ^ 4,
            12, (0xDC00 + (c - 0x10000) % 0x400) / 2 ^ 4,
            0xD800 + (c - 0x10000) / 0x400, [c], [u], encPair_P2_astral c u hge,
            Or.inr ⟨0xDC00 + (c - 0x10000) % 0x400, Or.inr rfl, by omega, rfl, rfl, rfl,
              Or.inr ⟨hi_isHigh c hge hlt, lo_isLow c, by rw [join_hi_lo c hge hlt]⟩⟩,
            rfl, decChain_P2_astral_s0 c u hlt hge hu huhi tail⟩
        · subst hpend
          exact ⟨4, (0xDC00 + (c - 0x10000) % 0x400) % 2 ^ 4,
            12, (0xDC00 + (c - 0x10000) % 0x400) / 2 ^ 4,
            0xD800 + (c - 0x10000) / 0x400, [c], [joinSurrogates surr u],
            encPair_P2_astral c u hge,
            Or.inr ⟨0xDC00 + (c - 0x10000) % 0x400, Or.inr rfl, by omega, rfl, rfl, rfl,
              Or.inr ⟨hi_isHigh c hge hlt, lo_isLow c, by rw [join_hi_lo c hge hlt]⟩⟩,
            rfl, decChain_P2_astral_s1 c u surr hlt hge hu hshigh hulow tail⟩
      · subst he4 hb hd hdb
        rcases hsub with ⟨hs0, huhi, hulo, hpend⟩ | ⟨hshigh, hulow, hpend⟩
        · subst hs0 hpend
          exact ⟨0, 0, 0, 0, 0, [], [u, c], encPair_P4_astral c u hge,
            Or.inl ⟨rfl, rfl, rfl, rfl, rfl, rfl⟩, by simp,
            decChain_P4_astral_s0 c u hlt hge hu huhi tail⟩
        · subst hpend
          exact ⟨0, 0, 0, 0, 0, [], [joinSurrogates surr u, c], encPair_P4_astral c u hge,
            Or.inl ⟨rfl, rfl, rfl, rfl, rfl, rfl⟩, by simp,
            decChain_P4_astral_s1 c u surr hlt hge hu hshigh hulow tail⟩

/-- Decoding the encoder's shift-sequence output from any coupled state
yields the pending units followed by the run, and hands the decoder back
to the unshifted initial state for the remaining input. -/
theorem shift_roundtrip (r : List Nat) (hall : ∀ c ∈ r, RunChar c) :
    ∀ ebits ebuf dbits dbuf surr pending (tail : List Nat),
      ShiftInv ebits ebuf dbits dbuf surr pending →
      pyUtf7DecodeLoop (pyUtf7EncodeLoop r true ebits ebuf ++ tail) true dbits dbuf surr
        = (pyUtf7DecodeLoop tail false 0 0 0).map (fun x => (pending ++ r) ++ x) := by
  induction r with
  | nil =>
    intro ebits ebuf dbits dbuf surr pending tail hInv
    rcases hInv with ⟨he, hb, hd, hdb, hs, hp⟩ | ⟨u, he24, hu, hb, hd, hdb, hsub⟩
    · subst he hb hd hdb hs hp
      rw [pyUtf7EncodeLoop]
      simp only [ne_eq, not_true_eq_false, if_false, if_true, List.nil_append,
        List.cons_append, List.append_assoc]
      rw [decLoop_dash tail 0 (by norm_num)]
      cases pyUtf7DecodeLoop tail false 0 0 0 <;> simp
    · rcases he24 with he2 | he4
      · subst he2 hb hd hdb
        rw [pyUtf7EncodeLoop]
        simp only [ne_eq, List.cons_append, List.nil_append, List.append_assoc,
          show ((2 : Nat) ≠ 0) = True from by norm_num, if_true,
          show (6 : Nat) - 2 = 4 from rfl, show (16 : Nat) - 2 = 14 from rfl]
        rcases hsub with ⟨hs0, huhi, hulo, hpend⟩ | ⟨hshigh, hulow, hpend⟩
        · subst hs0 hpend
          rw [decLoop_b64_emit _ _ 14 (u / 2 ^ 2) u 4 0 (by norm_num) (by omega)
            (by omega) (by omega) huhi]
          rw [decLoop_dash tail 4 (by norm_num)]
          cases pyUtf7DecodeLoop tail false 0 0 0 <;> simp
        · subst hpend
          rw [decLoop_b64_join _ _ 14 (u / 2 ^ 2) surr u 4 0 (by norm_num)
            (high_ne_zero surr hshigh) (by omega) (by omega) (by omega) hulow]
          rw [decLoop_dash tail 4 (by norm_num)]
          cases pyUtf7DecodeLoop tail false 0 0 0 <;> simp
      · subst he4 hb hd hdb
        rw [pyUtf7EncodeLoop]
        simp only [ne_eq, List.cons_append, List.nil_append, List.append_assoc,
          show ((4 : Nat) ≠ 0) = True from by norm_num, if_true,
          show (6 : Nat) - 4 = 2 from rfl, show (16 : Nat) - 4 = 12 from rfl]
        rcases hsub with ⟨hs0, huhi, hulo, hpend⟩ | ⟨hshigh, hulow, hpend⟩
        · subst hs0 hpend
          rw [decLoop_b64_emit _ _ 12 (u / 2 ^ 4) u 2 0 (by norm_num) (by omega)
            (by omega) (by omega) huhi]
          rw [decLoop_dash tail 2 (by norm_num)]
          cases pyUtf7DecodeLoop tail false 0 0 0 <;> simp
        · subst hpend
          rw [decLoop_b64_join _ _ 12 (u / 2 ^ 4) surr u 2 0 (by norm_num)
            (high_ne_zero surr hshigh) (by omega) (by omega) (by omega) hulow]
          rw [decLoop_dash tail 2 (by norm_num)]
          cases pyUtf7DecodeLoop tail false 0 0 0 <;> simp
  | cons c rest ih =>
    intro ebits ebuf dbits dbuf surr pending tail hInv
    have hc : RunChar c := hall c (List.mem_cons_self c rest)
    have hrest : ∀ x ∈ rest, RunChar x := fun x hx => hall x (List.mem_cons_of_mem c hx)
    obtain ⟨e', b', d1, d2, s', pend', E, hpair, hInv', hE, hdec⟩ :=
      shift_step c hc ebits ebuf dbits dbuf surr pending hInv
        (pyUtf7EncodeLoop rest true (pyUtf7EncodeChar c ebits ebuf).2.1
          (pyUtf7EncodeChar c ebits ebuf).2.2 ++ tail)
    have h21 : (pyUtf7EncodeChar c ebits ebuf).2.1 = e' := by rw [hpair]
    have h22 : (pyUtf7EncodeChar c ebits ebuf).2.2 = b' := by rw [hpair]
    rw [pyUtf7EncodeLoop]
    simp only [hc.2.2.2, Bool.false_eq_true, if_false, List.append_assoc]
    rw [h21, h22] at hdec
    rw [h21, h22, hdec, ih hrest e' b' d1 d2 s' pend' tail hInv']
    simp only [Option.map_map]
    refine congrArg₂ Option.map ?_ rfl
    funext x
    simp only [Function.comp]
    rw [show pending ++ (c :: rest ++ x) = ((pending ++ [c]) ++ rest) ++ x by simp, hE]
    simp [List.append_assoc]


theorem isBase64Char_lt_128 (x : Nat) (h : isBase64Char x = true) : x < 128 := by
  simp [isBase64Char] at h
  omega

theorem isBase64Char_ne_45 (x : Nat) (h : isBase64Char x = true) : x ≠ 45 := by
  simp [isBase64Char] at h
  omega

theorem slashToComma_ne_45 (x : Nat) (h : isBase64Char x = true) : slashToComma x ≠ 45 := by
  have := isBase64Char_ne_45 x h
  unfold slashToComma
  split <;> omega

theorem comma_slash_inv (x : Nat) (h : isBase64Char x = true) :
    commaToSlash (slashToComma x) = x := by
  have h44 : x ≠ 44 := by simp [isBase64Char] at h; omega
  by_cases h47 : x = 47 <;> simp [slashToComma, commaToSlash, h47, h44]

theorem map_comma_slash (B : List Nat) (hB : ∀ x ∈ B, isBase64Char x = true) :
    (B.map slashToComma).map commaToSlash = B := by
  rw [List.map_map]
  induction B with
  | nil => rfl
  | cons b t ih =>
    simp only [List.map_cons, Function.comp]
    rw [comma_slash_inv b (hB b (List.mem_cons_self b t)),
      show t.map (commaToSlash ∘ slashToComma) = t from
        ih (fun x hx => hB x (List.mem_cons_of_mem b hx))]

theorem flushB64_base64 (bits : Nat) : ∀ buf x, x ∈ (flushB64 bits buf).1 →
    isBase64Char x = true := by
  induction bits using Nat.strong_induction_on with
  | _ bits ih =>
    intro buf x hx
    by_cases h6 : 6 ≤ bits
    · obtain ⟨b', rfl⟩ : ∃ b', bits = b' + 6 := ⟨bits - 6, by omega⟩
      simp only [flushB64, List.mem_cons] at hx
      rcases hx with rfl | hx
      · exact isBase64Char_base64Char _
      · exact ih b' (by omega) _ _ hx
    · interval_cases bits <;> simp [flushB64] at hx

theorem encChar_base64 (c bits buf : Nat) :
    ∀ x ∈ (pyUtf7EncodeChar c bits buf).1, isBase64Char x = true := by
  intro x hx
  unfold pyUtf7EncodeChar at hx
  split at hx
  · simp only [List.mem_append] at hx
    rcases hx with hx | hx
    · exact flushB64_base64 _ _ _ hx
    · exact flushB64_base64 _ _ _ hx
  · exact flushB64_base64 _ _ _ hx

theorem flushB64_cons (b' buf : Nat) : (flushB64 (b' + 6) buf).1
    = base64Char (buf / 2 ^ b') :: (flushB64 b' (buf % 2 ^ b')).1 := rfl

theorem pushUnit_ne_nil (u bits buf : Nat) : (pushUnit u bits buf).1 ≠ [] := by
  show (flushB64 (bits + 16) (buf * 2 ^ 16 + u)).1 ≠ []
  rw [show bits + 16 = bits + 10 + 6 from by omega, flushB64_cons]
  simp

theorem encChar_ne_nil (c bits buf : Nat) : (pyUtf7EncodeChar c bits buf).1 ≠ [] := by
  unfold pyUtf7EncodeChar
  split
  · simp only [ne_eq, List.append_eq_nil, not_and]
    intro h
    exact absurd h (pushUnit_ne_nil _ _ _)
  · exact pushUnit_ne_nil _ _ _

theorem encShift_shape (r : List Nat) (hall : ∀ c ∈ r, pyEncodeDirect c = false) :
    ∀ ebits ebuf, ∃ B : List Nat,
      pyUtf7EncodeLoop r true ebits ebuf = B ++ [45] ∧
      (∀ x ∈ B, isBase64Char x = true) ∧ (r ≠ [] → B ≠ []) := by
  induction r with
  | nil =>
    intro ebits ebuf
    refine ⟨if ebits ≠ 0 then [base64Char (ebuf * 2 ^ (6 - ebits))] else [], ?_, ?_, ?_⟩
    · rw [pyUtf7EncodeLoop]
      simp
    · intro x hx
      split at hx
      · simp at hx
        subst hx
        exact isBase64Char_base64Char _
      · simp at hx
    · intro h
      exact absurd rfl h
  | cons c rest ih =>
    intro ebits ebuf
    have hd : pyEncodeDirect c = false := hall c (List.mem_cons_self c rest)
    obtain ⟨B', hB', hb64, _⟩ := ih (fun x hx => hall x (List.mem_cons_of_mem c hx))
      (pyUtf7EncodeChar c ebits ebuf).2.1 (pyUtf7EncodeChar c ebits ebuf).2.2
    refine ⟨(pyUtf7EncodeChar c ebits ebuf).1 ++ B', ?_, ?_, ?_⟩
    · rw [pyUtf7EncodeLoop]
      simp only [hd, Bool.false_eq_true, if_false, hB', List.append_assoc]
    · intro x hx
      simp only [List.mem_append] at hx
      rcases hx with hx | hx
      · exact encChar_base64 c ebits ebuf x hx
      · exact hb64 x hx
    · intro _
      simp only [ne_eq, List.append_eq_nil, not_and]
      intro h
      exact absurd h (encChar_ne_nil c ebits ebuf)

theorem runEncode_shape (c : Nat) (rest : List Nat) (h43 : c ≠ 43)
    (hdir : pyEncodeDirect c = false) :
    pyUtf7Encode (c :: rest) = 43 :: pyUtf7EncodeLoop (c :: rest) true 0 0 := by
  show pyUtf7EncodeLoop (c :: rest) false 0 0 = _
  rw [pyUtf7EncodeLoop]
  simp only [h43, if_false, hdir, Bool.false_eq_true]
  rw [pyUtf7EncodeLoop]
  simp only [hdir, Bool.false_eq_true, if_false]

theorem findDash_append (M : List Nat) (hM : 45 ∉ M) (t : List Nat) :
    findDash (M ++ 45 :: t) = some (M, t) := by
  induction M with
  | nil => simp [findDash]
  | cons m M' ih =>
    have hm : m ≠ 45 := fun h => hM (h ▸ List.mem_cons_self m M')
    simp only [List.cons_append, findDash, hm, if_false, List.append_eq]
    rw [ih (fun h => hM (List.mem_cons_of_mem m h))]
    rfl

theorem decodeLoopImap_no38 (l : List Nat) (h : 38 ∉ l) : decodeLoopImap l = l := by
  induction l with
  | nil => rw [decodeLoopImap]
  | cons c rest ih =>
    have hc : c ≠ 38 := fun hh => h (hh ▸ List.mem_cons_self c rest)
    rw [decodeLoopImap]
    simp only [hc, if_false]
    rw [ih (fun hh => h (List.mem_cons_of_mem c hh))]


theorem valid_nonprintable_run (c : Nat) (h : ValidChar c)
    (hp : isPrintableAscii c = false) : RunChar c ∧ c ≠ 43 := by
  obtain ⟨h1, h2, h3, h9, h10, h13⟩ := h
  simp [isPrintableAscii] at hp
  refine ⟨⟨h1, h2, h3, ?_⟩, by omega⟩
  simp [pyEncodeDirect]
  omega

theorem decLoop_43_b64 (d : Nat) (t : List Nat) (hd : isBase64Char d = true) :
    pyUtf7DecodeLoop (43 :: d :: t) false 0 0 0 = pyUtf7DecodeLoop (d :: t) true 0 0 0 := by
  have hd45 : d ≠ 45 := isBase64Char_ne_45 d hd
  simp [pyUtf7DecodeLoop, hd, hd45]

theorem pyUtf7Decode_run (run : List Nat) (hall : ∀ c ∈ run, RunChar c)
    (B : List Nat) (hB : pyUtf7EncodeLoop run true 0 0 = B ++ [45])
    (hBne : B ≠ []) (hb64 : ∀ x ∈ B, isBase64Char x = true) :
    pyUtf7Decode (43 :: (B ++ [45])) = some run := by
  obtain ⟨d, B', rfl⟩ := List.exists_cons_of_ne_nil hBne
  have hd := hb64 d (List.mem_cons_self d B')
  have hrt := shift_roundtrip run hall 0 0 0 0 0 [] []
    (Or.inl ⟨rfl, rfl, rfl, rfl, rfl, rfl⟩)
  rw [List.append_nil, hB] at hrt
  show pyUtf7DecodeLoop (43 :: d :: (B' ++ [45])) false 0 0 0 = some run
  rw [decLoop_43_b64 d (B' ++ [45]) hd,
    show d :: (B' ++ [45]) = (d :: B') ++ [45] from rfl]
  rw [show pyUtf7DecodeLoop [] false 0 0 0 = some [] from rfl] at hrt
  simpa using hrt

theorem decodeSegment_run (run B : List Nat)
    (hb64 : ∀ x ∈ B, isBase64Char x = true)
    (hdec : pyUtf7Decode (43 :: (B ++ [45])) = some run) :
    decodeSegment (B.map slashToComma) = run := by
  have hmm : List.map (commaToSlash ∘ slashToComma) B = B := by
    rw [← List.map_map]
    exact map_comma_slash B hb64
  unfold decodeSegment
  simp only [List.map_map]
  rw [hmm]
  rw [if_pos ?_, hdec]
  · rw [List.all_eq_true]
    intro x hx
    simp at hx
    rcases hx with rfl | hx | rfl
    · decide
    · simpa using isBase64Char_lt_128 x (hb64 x hx)
    · decide

theorem wrapImap_run (B : List Nat) :
    wrapImap (43 :: (B ++ [45])) = 38 :: (B.map slashToComma ++ [45]) := by
  unfold wrapImap
  rw [if_pos ?_]
  · rw [show (43 :: (B ++ [45])).drop 1 = B ++ [45] from rfl, List.dropLast_concat]
    simp
  · constructor
    · rfl
    · rw [show 43 :: (B ++ [45]) = (43 :: B) ++ [45] from rfl, List.getLast?_concat]

theorem imap_run (run : List Nat) (hne : run ≠ []) (hall : ∀ c ∈ run, RunChar c)
    (h43 : ∀ c ∈ run, c ≠ 43) (rest : List Nat) :
    decodeLoopImap (wrapImap (pyUtf7Encode run) ++ rest) = run ++ decodeLoopImap rest := by
  obtain ⟨c, run', rfl⟩ := List.exists_cons_of_ne_nil hne
  obtain ⟨B, hB, hb64, hBne'⟩ :=
    encShift_shape (c :: run') (fun x hx => (hall x hx).2.2.2) 0 0
  have hBne : B ≠ [] := hBne' (by simp)
  have henc : pyUtf7Encode (c :: run') = 43 :: (B ++ [45]) := by
    rw [runEncode_shape c run' (h43 c (List.mem_cons_self c run'))
      (hall c (List.mem_cons_self c run')).2.2.2, hB]
  have hM45 : 45 ∉ B.map slashToComma := by
    intro hmem
    simp only [List.mem_map] at hmem
    obtain ⟨x, hx, hsx⟩ := hmem
    exact slashToComma_ne_45 x (hb64 x hx) hsx
  rw [henc, wrapImap_run,
    show (38 :: (B.map slashToComma ++ [45])) ++ rest
      = 38 :: (B.map slashToComma ++ 45 :: rest) from by simp]
  rw [decodeLoopImap]
  rw [if_pos rfl, if_neg ?_]
  · split
    · rename_i heq
      rw [findDash_append _ hM45 rest] at heq
      exact absurd heq (by simp)
    · rename_i seg rest' heq
      rw [findDash_append _ hM45 rest] at heq
      obtain ⟨h1, h2⟩ := Prod.mk.inj (Option.some.inj heq)
      subst h1 h2
      rw [decodeSegment_run (c :: run') B hb64
        (pyUtf7Decode_run (c :: run') hall B hB hBne hb64)]
  · obtain ⟨d, B', rfl⟩ := List.exists_cons_of_ne_nil hBne
    intro hh
    simp only [List.map_cons, List.cons_append, List.head?_cons] at hh
    exact slashToComma_ne_45 d (hb64 d (List.mem_cons_self d B')) (Option.some.inj hh)


theorem decodeLoop_encodeLoop (n : Nat) : ∀ s : PyStr, s.length ≤ n →
    (∀ c ∈ s, ValidChar c) → decodeLoopImap (encodeLoopImap s) = s := by
  induction n with
  | zero =>
    intro s hlen _
    have hs : s = [] := List.eq_nil_of_length_eq_zero (by omega)
    subst hs
    rw [encodeLoopImap, decodeLoopImap]
  | succ n ih =>
    intro s hlen hval
    cases s with
    | nil => rw [encodeLoopImap, decodeLoopImap]
    | cons c rest =>
      have hvrest : ∀ x ∈ rest, ValidChar x :=
        fun x hx => hval x (List.mem_cons_of_mem c hx)
      have hlrest : rest.length ≤ n := by
        simp only [List.length_cons] at hlen
        omega
      by_cases hc38 : c = 38
      · subst hc38
        rw [encodeLoopImap]
        rw [if_pos rfl]
        rw [decodeLoopImap]
        rw [if_pos rfl]
        simp only [List.head?_cons, if_true]
        simp only [List.tail_cons]
        rw [ih rest hlrest hvrest]
      · by_cases hcp : isPrintableAscii c = true
        · rw [encodeLoopImap]
          rw [if_neg hc38, if_pos hcp]
          rw [decodeLoopImap]
          rw [if_neg hc38]
          rw [ih rest hlrest hvrest]
        · have hcp' : isPrintableAscii c = false := by
            cases h : isPrintableAscii c
            · rfl
            · exact absurd h hcp
          rw [encodeLoopImap]
          rw [if_neg hc38, if_neg hcp]
          have htake : (c :: rest).takeWhile (fun d => !isPrintableAscii d)
              = c :: rest.takeWhile (fun d => !isPrintableAscii d) :=
            List.takeWhile_cons_of_pos (by simp [hcp'])
          have hdrop : (c :: rest).dropWhile (fun d => !isPrintableAscii d)
              = rest.dropWhile (fun d => !isPrintableAscii d) :=
            List.dropWhile_cons_of_pos (by simp [hcp'])
          have hrunmem : ∀ x ∈ (c :: rest).takeWhile (fun d => !isPrintableAscii d),
              RunChar x ∧ x ≠ 43 := by
            intro x hx
            have hpx : isPrintableAscii x = false := by
              have := List.mem_takeWhile_imp hx
              simpa using this
            have hvx : ValidChar x :=
              hval x ((List.takeWhile_prefix _).sublist.subset hx)
            exact valid_nonprintable_run x hvx hpx
          rw [imap_run ((c :: rest).takeWhile (fun d => !isPrintableAscii d))
            (by rw [htake]; simp)
            (fun x hx => (hrunmem x hx).1) (fun x hx => (hrunmem x hx).2)]
          have hdroplen : ((c :: rest).dropWhile (fun d => !isPrintableAscii d)).length ≤ n := by
            rw [hdrop]
            have := (List.dropWhile_sublist (l := rest) (fun d => !isPrintableAscii d)).length_le
            omega
          have hdropmem : ∀ x ∈ (c :: rest).dropWhile (fun d => !isPrintableAscii d),
              ValidChar x := by
            intro x hx
            exact hval x ((List.dropWhile_sublist _).subset hx)
          rw [ih _ hdroplen hdropmem]
          exact List.takeWhile_append_dropWhile _ _


theorem decode_imap_eq_loop (x : PyStr) : decode_imap_utf7 x = decodeLoopImap x := by
  unfold decode_imap_utf7
  split
  · rfl
  · rename_i h
    rw [decodeLoopImap_no38 x h]

theorem findDash_none (l : List Nat) (h : 45 ∉ l) : findDash l = none := by
  induction l with
  | nil => rfl
  | cons c rest ih =>
    have hc : c ≠ 45 := fun hh => h (hh ▸ List.mem_cons_self c rest)
    simp only [findDash, hc, if_false]
    rw [ih (fun hh => h (List.mem_cons_of_mem c hh))]
    rfl

theorem decodeLoopImap_append_no38 (a X : PyStr) (ha : 38 ∉ a) :
    decodeLoopImap (a ++ X) = a ++ decodeLoopImap X := by
  induction a with
  | nil => simp
  | cons c a' ih =>
    have hc : c ≠ 38 := fun hh => ha (hh ▸ List.mem_cons_self c a')
    rw [List.cons_append, decodeLoopImap]
    rw [if_neg hc, ih (fun hh => ha (List.mem_cons_of_mem c hh))]
    rfl

theorem decodeLoopImap_amp_none (b : PyStr) (hb : 45 ∉ b) :
    decodeLoopImap (38 :: b) = 38 :: b := by
  rw [decodeLoopImap, if_pos rfl, if_neg ?_]
  · split
    · rfl
    · rename_i seg rest' heq
      rw [findDash_none b hb] at heq
      exact absurd heq (by simp)
  · cases b with
    | nil => simp
    | cons m b' =>
      have hm : m ≠ 45 := fun hh => hb (hh ▸ List.mem_cons_self m b')
      simp [hm]

theorem decodeSegment_fail (seg : PyStr)
    (hfail : (43 :: (seg.map commaToSlash ++ [45])).all (fun c => c < 128) = false ∨
      pyUtf7Decode (43 :: (seg.map commaToSlash ++ [45])) = none) :
    decodeSegment seg = 38 :: (seg ++ [45]) := by
  simp only [decodeSegment]
  rcases hfail with hfail | hfail
  · rw [hfail]
    rfl
  · split
    · rw [hfail]
    · rfl

theorem decodeLoopImap_amp_fail (seg rest : PyStr) (hne : seg ≠ []) (hs : 45 ∉ seg)
    (hfail : (43 :: (seg.map commaToSlash ++ [45])).all (fun c => c < 128) = false ∨
      pyUtf7Decode (43 :: (seg.map commaToSlash ++ [45])) = none) :
    decodeLoopImap (38 :: (seg ++ 45 :: rest))
      = (38 :: (seg ++ [45])) ++ decodeLoopImap rest := by
  obtain ⟨m, seg', rfl⟩ := List.exists_cons_of_ne_nil hne
  have hm : m ≠ 45 := fun hh => hs (hh ▸ List.mem_cons_self m seg')
  rw [decodeLoopImap, if_pos rfl, if_neg ?_]
  · split
    · rename_i heq
      rw [findDash_append _ hs rest] at heq
      exact absurd heq (by simp)
    · rename_i seg2 rest2 heq
      rw [findDash_append _ hs rest] at heq
      obtain ⟨h1, h2⟩ := Prod.mk.inj (Option.some.inj heq)
      subst h1 h2
      rw [decodeSegment_fail _ hfail]
  · simp [hm]

/-- C6: `decode_imap_utf7` tolerates malformed input: a `&` whose shift
sequence has no terminating `-` leaves the remainder of the string as-is,
and a delimited segment that fails to decode (non-ASCII, or rejected by the
UTF-7 decoder) is passed through untouched — `&`, raw segment and `-` —
while decoding continues after it.  Decoding never fails: the embedding is
a total function on all inputs by construction. -/
theorem decode_imap_malformed (a b seg rest : PyStr) (ha : 38 ∉ a) :
    (45 ∉ b → decode_imap_utf7 (a ++ 38 :: b) = a ++ 38 :: b) ∧
    (seg ≠ [] → 45 ∉ seg →
      ((43 :: (seg.map commaToSlash ++ [45])).all (fun c => c < 128) = false ∨
        pyUtf7Decode (43 :: (seg.map commaToSlash ++ [45])) = none) →
      decode_imap_utf7 (a ++ 38 :: (seg ++ 45 :: rest))
        = a ++ ((38 :: (seg ++ [45])) ++ decodeLoopImap rest)) := by
  constructor
  · intro hb
    rw [decode_imap_eq_loop, decodeLoopImap_append_no38 a _ ha,
      decodeLoopImap_amp_none b hb]
  · intro hne hs hfail
    rw [decode_imap_eq_loop, decodeLoopImap_append_no38 a _ ha,
      decodeLoopImap_amp_fail seg rest hne hs hfail]

theorem decode_imap_malformed_witness :
    (38 ∉ ([65] : PyStr) ∧ 45 ∉ ([66, 38] : PyStr) ∧
      decode_imap_utf7 ([65] ++ 38 :: [66, 38]) = [65] ++ 38 :: [66, 38]) ∧
    (([233] : PyStr) ≠ [] ∧ 45 ∉ ([233] : PyStr) ∧
      decode_imap_utf7 ([65] ++ 38 :: ([233] ++ 45 :: [67]))
        = [65] ++ ((38 :: ([233] ++ [45])) ++ decodeLoopImap [67])) :=
  ⟨⟨by decide, by decide,
      (decode_imap_malformed [65] [66, 38] [] [] (by decide)).1 (by decide)⟩,
    ⟨by decide, by decide,
      (decode_imap_malformed [65] [] [233] [67] (by decide)).2 (by decide) (by decide)
        (Or.inl (by decide))⟩⟩

/-- C3, counterexample: the claimed round trip fails on `"\n"`.  LF is
encoded directly by CPython's UTF-7 codec, so `encode_imap_utf7 "\n"`
produces `"&-"` (the leading `+` of `"+-"` is stripped and `&`…`-` added
around the empty base-64 body), which decodes to `"&"`, not `"\n"`. -/
theorem codec_roundtrip_counterexample :
    encode_imap_utf7 [10] = [38, 45] ∧
      decode_imap_utf7 (encode_imap_utf7 [10]) = [38] ∧ ([38] : PyStr) ≠ [10] := by
  refine ⟨?_, ?_, by decide⟩
  · simp [encode_imap_utf7, encodeLoopImap, isPrintableAscii, pyUtf7Encode,
      pyUtf7EncodeLoop, pyEncodeDirect, wrapImap]
  · simp [encode_imap_utf7, encodeLoopImap, isPrintableAscii, pyUtf7Encode,
      pyUtf7EncodeLoop, pyEncodeDirect, wrapImap, decode_imap_utf7, decodeLoopImap]

/-- C3, amended: the folder-name codec round trip
`decode_imap_utf7 (encode_imap_utf7 s) = s` holds for every string of
Unicode scalar values (no lone surrogates) that contains none of tab, LF,
CR (code points 9, 10, 13); it fails for strings containing those control
characters (see the counterexample). -/
theorem codec_roundtrip_amended (s : PyStr) (h : ∀ c ∈ s, ValidChar c) :
    decode_imap_utf7 (encode_imap_utf7 s) = s := by
  rw [decode_imap_eq_loop]
  unfold encode_imap_utf7
  split
  · rename_i hcond
    exact decodeLoopImap_no38 s hcond.2
  · exact decodeLoop_encodeLoop s.length s le_rfl h

theorem codec_roundtrip_amended_witness :
    (∀ c ∈ ([1055, 1088, 32, 65, 128512] : PyStr), ValidChar c) ∧
      decode_imap_utf7 (encode_imap_utf7 [1055, 1088, 32, 65, 128512])
        = [1055, 1088, 32, 65, 128512] :=
  ⟨by decide, codec_roundtrip_amended [1055, 1088, 32, 65, 128512] (by decide)⟩

end McpEmail
